import Mathlib

/-!
# Particle kernels of the PIC code: a shallow embedding

The C++ kernels are embedded as Lean functions over an arbitrary linearly ordered field `K`.
The functions of `<cmath>` (`sqrt`, `cos`, `sin`), the constant `pi` and
`std::numeric_limits<Real>::min()` are passed in a record, so that every definition can be
evaluated over `ℚ`, while the theorems instantiate the record with the functions of `ℝ`
(exact real arithmetic).  Random engines are embedded as the successive values returned by
`amrex::Random(engine)`.
-/

set_option linter.unusedVariables false

namespace Artemis

/-- Three components `(x, y, z)` of a vector quantity. -/
structure Vec3 (K : Type) where
  x : K
  y : K
  z : K
deriving DecidableEq, Repr

/-- The sum of squares `x*x + y*y + z*z`. -/
def Vec3.normSq {K : Type} [Mul K] [Add K] (v : Vec3 K) : K :=
  v.x * v.x + v.y * v.y + v.z * v.z

/-- Componentwise sum. -/
def Vec3.add {K : Type} [Add K] (a b : Vec3 K) : Vec3 K :=
  ⟨a.x + b.x, a.y + b.y, a.z + b.z⟩

/-- Componentwise product with a scalar, `m * u`. -/
def Vec3.scale {K : Type} [Mul K] (m : K) (u : Vec3 K) : Vec3 K :=
  ⟨m * u.x, m * u.y, m * u.z⟩

/-- Functions and constants the kernels take from the C++ standard library and from
`MathConst`: `std::sqrt`, `std::cos`, `std::sin`, `MathConst::pi` and
`std::numeric_limits<amrex::ParticleReal>::min()`. -/
structure Numerics (K : Type) where
  sqrt : K → K
  cos : K → K
  sin : K → K
  pi : K
  numeric_limits_min : K

/-- Physical constants of `Utils/WarpXConst.H` (that header is not among the sources, so the
values are parameters): speed of light, elementary charge, proton mass, classical electron
radius. -/
structure PhysConst (K : Type) where
  c : K
  q_e : K
  m_p : K
  r_e : K

namespace ParticleUtils

/-- `ParticleUtils::getRandomVector` (ParticleUtils.H:43-57).  `r1` and `r2` are the values of
the first and of the second call of `amrex::Random(engine)`. -/
def getRandomVector {K : Type} [LinearOrderedField K] (F : Numerics K) (r1 r2 : K) : Vec3 K :=
  let theta := r1 * 2 * F.pi
  let z := 2 * r2 - 1
  let xy := F.sqrt (1 - z * z)
  let x := xy * F.cos theta
  let y := xy * F.sin theta
  ⟨x, y, z⟩

/-- `ParticleUtils::RandomizeVelocity` (ParticleUtils.H:66-80).  The references `ux, uy, uz`
are in/out parameters: `u` holds their incoming values and the result their values on
return. -/
def RandomizeVelocity {K : Type} [LinearOrderedField K] (F : Numerics K)
    (u : Vec3 K) (vp : K) (r1 r2 : K) : Vec3 K :=
  let v := getRandomVector F r1 r2
  let ux := v.x * vp
  let uy := v.y * vp
  let uz := v.z * vp
  ⟨ux, uy, uz⟩

end ParticleUtils

/-- Real components of a particle that the kernels address through `PIdx`
(weight and normalized momentum). -/
inductive PIdx where
  | w
  | ux
  | uy
  | uz
deriving DecidableEq, Repr

/-- Struct-of-arrays particle data: `m_rdata[comp][index]`. -/
structure SoaData (K : Type) where
  m_rdata : PIdx → Nat → K

/-- Write one entry `m_rdata[comp][idx] = v`. -/
def SoaData.set {K : Type} (s : SoaData K) (comp : PIdx) (idx : Nat) (v : K) : SoaData K :=
  ⟨fun c j => if c = comp ∧ j = idx then v else s.m_rdata c j⟩

/-- Local variables of `ProtonBoronFusionInitializeMomentum` that the properties refer to.
`div_vc_sq` and `div_v_Be_sq` are ghost logs: the denominators of the quotients
`factor0 = (gc - 1)/vc_sq` and `factor0 = (g_Be - 1)/v_Be_sq` that the function evaluates (the
only divisions by a squared velocity in the source). -/
structure FusionLocals (K : Type) where
  p1 : Vec3 K
  p2 : Vec3 K
  E_star_f_sq : K
  p_star_f_sq : K
  p_star : Vec3 K
  vc_sq : K
  p_alpha1 : Vec3 K
  p_Be : Vec3 K
  p_Bestar : Vec3 K
  v_Be_sq : K
  p_alpha2 : Vec3 K
  p_alpha3 : Vec3 K
  m_alpha : K
  div_vc_sq : List K
  div_v_Be_sq : List K

/-- Body of `ProtonBoronFusionInitializeMomentum` up to the computation of the third alpha
(ProtonBoronFusionInitializeMomentum.H:72-225), from the normalized momenta `u1`, `u2` read at
lines 96-101.  `r1, r2` are the two draws of the first `RandomizeVelocity`, `r3, r4` those of
the second one.  The out-variables `px_star, ...` and `px_Bestar, ...` are declared without an
initial value in the source; they enter `RandomizeVelocity` as `0` here. -/
def ProtonBoronFusionInitializeMomentum.locals {K : Type} [LinearOrderedField K]
    (F : Numerics K) (P : PhysConst K) (u1 u2 : Vec3 K) (m1 m2 : K) (r1 r2 r3 r4 : K) :
    FusionLocals K :=
  let mev_to_joule := P.q_e * 1.e6
  let E_fusion := 8.59009 * mev_to_joule
  let E_decay := 0.0918984 * mev_to_joule
  let m_alpha := P.m_p * 3.97369
  let m_beryllium := P.m_p * 7.94748
  let ma_sq := m_alpha * m_alpha
  let mBe_sq := m_beryllium * m_beryllium
  let c_sq := P.c * P.c
  let inv_csq := 1 / c_sq
  let E_rest_pb := (m1 + m2) * c_sq
  let E_rest_abe := (m_alpha + m_beryllium) * c_sq
  let u1x := u1.x
  let u1y := u1.y
  let u1z := u1.z
  let u2x := u2.x
  let u2y := u2.y
  let u2z := u2.z
  let g1 := F.sqrt (1 + (u1x * u1x + u1y * u1y + u1z * u1z) * inv_csq)
  let g2 := F.sqrt (1 + (u2x * u2x + u2y * u2y + u2z * u2z) * inv_csq)
  let p1x := u1x * m1
  let p1y := u1y * m1
  let p1z := u1z * m1
  let p2x := u2x * m2
  let p2y := u2y * m2
  let p2z := u2z * m2
  let pow2 := fun (x : K) => x * x
  let p_total_sq := pow2 (p1x + p2x) + pow2 (p1y + p2y) + pow2 (p1z + p2z)
  let E_lab := (m1 * g1 + m2 * g2) * c_sq
  let E_star_sq := E_lab * E_lab - c_sq * p_total_sq
  let E_star_f_sq := pow2 (F.sqrt E_star_sq - E_rest_pb + E_rest_abe + E_fusion)
  let pow3 := fun (x : K) => x * x * x
  let p_star_f_sq :=
    E_star_f_sq * 0.25 * inv_csq - (ma_sq + mBe_sq) * c_sq * 0.5 +
      pow3 c_sq * 0.25 * pow2 (ma_sq - mBe_sq) / E_star_f_sq
  let p_star := ParticleUtils.RandomizeVelocity F ⟨0, 0, 0⟩ (F.sqrt p_star_f_sq) r1 r2
  let px_star := p_star.x
  let py_star := p_star.y
  let pz_star := p_star.z
  let mass_g := m1 * g1 + m2 * g2
  let vcx := (p1x + p2x) / mass_g
  let vcy := (p1y + p2y) / mass_g
  let vcz := (p1z + p2z) / mass_g
  let vc_sq := vcx * vcx + vcy * vcy + vcz * vcz
  let alpha1 : Vec3 K × List K :=
    if vc_sq > F.numeric_limits_min then
      let gc := 1 / F.sqrt (1 - vc_sq * inv_csq)
      let g_star := F.sqrt (1 + p_star_f_sq / (ma_sq * c_sq))
      let vcDps := vcx * px_star + vcy * py_star + vcz * pz_star
      let factor0 := (gc - 1) / vc_sq
      let factor := factor0 * vcDps + m_alpha * g_star * gc
      (⟨px_star + vcx * factor, py_star + vcy * factor, pz_star + vcz * factor⟩, [vc_sq])
    else
      (⟨px_star, py_star, pz_star⟩, [])
  let px_alpha1 := alpha1.1.x
  let py_alpha1 := alpha1.1.y
  let pz_alpha1 := alpha1.1.z
  let px_Be := p1x + p2x - px_alpha1
  let py_Be := p1y + p2y - py_alpha1
  let pz_Be := p1z + p2z - pz_alpha1
  let gamma_Bestar := 1 + 0.5 * E_decay / (m_alpha * c_sq)
  let gamma_Bestar_sq_minus_one := gamma_Bestar * gamma_Bestar - 1
  let p_Bestar := m_alpha * P.c * F.sqrt gamma_Bestar_sq_minus_one
  let pBestar := ParticleUtils.RandomizeVelocity F ⟨0, 0, 0⟩ p_Bestar r3 r4
  let px_Bestar := pBestar.x
  let py_Bestar := pBestar.y
  let pz_Bestar := pBestar.z
  let p_Be_sq := px_Be * px_Be + py_Be * py_Be + pz_Be * pz_Be
  let g_Be := F.sqrt (1 + p_Be_sq / (mBe_sq * c_sq))
  let mg_Be := m_beryllium * g_Be
  let v_Bex := px_Be / mg_Be
  let v_Bey := py_Be / mg_Be
  let v_Bez := pz_Be / mg_Be
  let v_Be_sq := v_Bex * v_Bex + v_Bey * v_Bey + v_Bez * v_Bez
  let alpha2 : Vec3 K × List K :=
    if v_Be_sq > F.numeric_limits_min then
      let vcDps := v_Bex * px_Bestar + v_Bey * py_Bestar + v_Bez * pz_Bestar
      let factor0 := (g_Be - 1) / v_Be_sq
      let factor := factor0 * vcDps + m_alpha * gamma_Bestar * g_Be
      (⟨px_Bestar + v_Bex * factor, py_Bestar + v_Bey * factor, pz_Bestar + v_Bez * factor⟩,
        [v_Be_sq])
    else
      (⟨px_Bestar, py_Bestar, pz_Bestar⟩, [])
  let px_alpha2 := alpha2.1.x
  let py_alpha2 := alpha2.1.y
  let pz_alpha2 := alpha2.1.z
  let px_alpha3 := px_Be - px_alpha2
  let py_alpha3 := py_Be - py_alpha2
  let pz_alpha3 := pz_Be - pz_alpha2
  { p1 := ⟨p1x, p1y, p1z⟩
    p2 := ⟨p2x, p2y, p2z⟩
    E_star_f_sq := E_star_f_sq
    p_star_f_sq := p_star_f_sq
    p_star := ⟨px_star, py_star, pz_star⟩
    vc_sq := vc_sq
    p_alpha1 := ⟨px_alpha1, py_alpha1, pz_alpha1⟩
    p_Be := ⟨px_Be, py_Be, pz_Be⟩
    p_Bestar := ⟨px_Bestar, py_Bestar, pz_Bestar⟩
    v_Be_sq := v_Be_sq
    p_alpha2 := ⟨px_alpha2, py_alpha2, pz_alpha2⟩
    p_alpha3 := ⟨px_alpha3, py_alpha3, pz_alpha3⟩
    m_alpha := m_alpha
    div_vc_sq := alpha1.2
    div_v_Be_sq := alpha2.2 }

/-- `ProtonBoronFusionInitializeMomentum` (ProtonBoronFusionInitializeMomentum.H:56-248):
reads the momenta of the colliding pair in `soa_1`, `soa_2` and returns `soa_alpha` with the
momenta of the six alphas filled in (lines 230-247, in source order). -/
def ProtonBoronFusionInitializeMomentum {K : Type} [LinearOrderedField K]
    (F : Numerics K) (P : PhysConst K) (soa_1 soa_2 soa_alpha : SoaData K)
    (idx_1 idx_2 idx_alpha_start : Nat) (m1 m2 : K) (r1 r2 r3 r4 : K) : SoaData K :=
  let u1 : Vec3 K :=
    ⟨soa_1.m_rdata PIdx.ux idx_1, soa_1.m_rdata PIdx.uy idx_1, soa_1.m_rdata PIdx.uz idx_1⟩
  let u2 : Vec3 K :=
    ⟨soa_2.m_rdata PIdx.ux idx_2, soa_2.m_rdata PIdx.uy idx_2, soa_2.m_rdata PIdx.uz idx_2⟩
  let l := ProtonBoronFusionInitializeMomentum.locals F P u1 u2 m1 m2 r1 r2 r3 r4
  let m_alpha := l.m_alpha
  ((((((((((((((((((soa_alpha
    |>.set PIdx.ux idx_alpha_start (l.p_alpha1.x / m_alpha))
    |>.set PIdx.uy idx_alpha_start (l.p_alpha1.y / m_alpha))
    |>.set PIdx.uz idx_alpha_start (l.p_alpha1.z / m_alpha))
    |>.set PIdx.ux (idx_alpha_start + 1) (l.p_alpha1.x / m_alpha))
    |>.set PIdx.uy (idx_alpha_start + 1) (l.p_alpha1.y / m_alpha))
    |>.set PIdx.uz (idx_alpha_start + 1) (l.p_alpha1.z / m_alpha))
    |>.set PIdx.ux (idx_alpha_start + 2) (l.p_alpha2.x / m_alpha))
    |>.set PIdx.uy (idx_alpha_start + 2) (l.p_alpha2.y / m_alpha))
    |>.set PIdx.uz (idx_alpha_start + 2) (l.p_alpha2.z / m_alpha))
    |>.set PIdx.ux (idx_alpha_start + 3) (l.p_alpha2.x / m_alpha))
    |>.set PIdx.uy (idx_alpha_start + 3) (l.p_alpha2.y / m_alpha))
    |>.set PIdx.uz (idx_alpha_start + 3) (l.p_alpha2.z / m_alpha))
    |>.set PIdx.ux (idx_alpha_start + 4) (l.p_alpha3.x / m_alpha))
    |>.set PIdx.uy (idx_alpha_start + 4) (l.p_alpha3.y / m_alpha))
    |>.set PIdx.uz (idx_alpha_start + 4) (l.p_alpha3.z / m_alpha))
    |>.set PIdx.ux (idx_alpha_start + 5) (l.p_alpha3.x / m_alpha))
    |>.set PIdx.uy (idx_alpha_start + 5) (l.p_alpha3.y / m_alpha))
    |>.set PIdx.uz (idx_alpha_start + 5) (l.p_alpha3.z / m_alpha))

/-! ## `NuclearFusionFunc::operator()`: pairing of the macroparticles of one cell -/

namespace NuclearFusionFunc

/-- `max_N = amrex::max(NI1, NI2)` (NuclearFusionFunc.H:161).  `NI1`, `NI2` and the loop counter
`k` are non-negative `int`s, on which `/` and `%` of C++ are the ones of `ℕ`. -/
def max_N (NI1 NI2 : Nat) : Nat := max NI1 NI2

/-- `c1 = amrex::max(NI2/NI1, 1)` (NuclearFusionFunc.H:172). -/
def c1 (NI1 NI2 : Nat) : Nat := max (NI2 / NI1) 1

/-- `c2 = amrex::max(NI1/NI2, 1)` (NuclearFusionFunc.H:173). -/
def c2 (NI1 NI2 : Nat) : Nat := max (NI1 / NI2) 1

/-- `c1k = (k%NI1 < max_N%NI1) ? c1 + 1 : c1` (NuclearFusionFunc.H:190). -/
def c1k (NI1 NI2 k : Nat) : Nat :=
  if k % NI1 < max_N NI1 NI2 % NI1 then c1 NI1 NI2 + 1 else c1 NI1 NI2

/-- `c2k = (k%NI2 < max_N%NI2) ? c2 + 1 : c2` (NuclearFusionFunc.H:191). -/
def c2k (NI1 NI2 k : Nat) : Nat :=
  if k % NI2 < max_N NI1 NI2 % NI2 then c2 NI1 NI2 + 1 else c2 NI1 NI2

/-- What one iteration of the pairing loop hands over: the positions `i1`, `i2` in the index
arrays, the pair slot and the two weight divisors. -/
structure Pairing where
  k : Nat
  i1 : Nat
  i2 : Nat
  pair_index : Nat
  c1k : Nat
  c2k : Nat
deriving DecidableEq, Repr

/-- Loop variables `i1`, `i2`, `pair_index` together with the pairings made so far. -/
structure LoopState where
  i1 : Nat
  i2 : Nat
  pair_index : Nat
  pairs : List Pairing

/-- One iteration of `for (int k = 0; k < max_N; ++k)` (NuclearFusionFunc.H:186-206). -/
def loopBody (I1s I1e I2s I2e : Nat) (s : LoopState) (k : Nat) : LoopState :=
  let NI1 := I1e - I1s
  let NI2 := I2e - I2s
  let rec_k : Pairing := ⟨k, s.i1, s.i2, s.pair_index, c1k NI1 NI2 k, c2k NI1 NI2 k⟩
  let i1 := s.i1 + 1
  let i1 := if i1 = I1e then I1s else i1
  let i2 := s.i2 + 1
  let i2 := if i2 = I2e then I2s else i2
  ⟨i1, i2, s.pair_index + 1, s.pairs ++ [rec_k]⟩

/-- The pairings of `NuclearFusionFunc::operator()` in loop order. -/
def pairings (I1s I1e I2s I2e cell_start_pair : Nat) : List Pairing :=
  ((List.range (max_N (I1e - I1s) (I2e - I2s))).foldl (loopBody I1s I1e I2s I2e)
    ⟨I1s, I2s, cell_start_pair, []⟩).pairs

end NuclearFusionFunc

/-! ## `Algorithms::KineticEnergy` -/

namespace Algorithms

/-- `gamma_relativistic_threshold` (KineticEnergy.H:23-24). -/
def gamma_relativistic_threshold {K : Type} [LinearOrderedField K] : K := 1.005

/-- `Algorithms::KineticEnergy` (KineticEnergy.H:38-57). -/
def KineticEnergy {K : Type} [LinearOrderedField K] (F : Numerics K) (P : PhysConst K)
    (ux uy uz mass : K) : K :=
  let c2 := P.c * P.c
  let inv_c2 := 1 / c2
  let u2 := (ux * ux + uy * uy + uz * uz) * inv_c2
  let gamma := F.sqrt (1 + u2)
  let kk :=
    if gamma > gamma_relativistic_threshold then
      gamma - 1
    else
      u2 * 0.5 - u2 * u2 * (1 / 8) + u2 * u2 * u2 * (1 / 16) -
        u2 * u2 * u2 * u2 * (5 / 128) + (7 / 256) * u2 * u2 * u2 * u2 * u2
  kk * mass * c2

/-- The polynomial of the low-energy branch of `KineticEnergy`, in the variable `u2`. -/
def taylorBranch {K : Type} [LinearOrderedField K] (x : K) : K :=
  x / 2 - x ^ 2 / 8 + x ^ 3 / 16 - 5 * x ^ 4 / 128 + 7 * x ^ 5 / 256

end Algorithms

/-! ## `WarpXSumGuardCells` -/

/-- A multi-component mesh array: `data cell n` is the value of component `n` at `cell` (a cell
of one box, valid or guard), `nGrowVect` the guard width. -/
structure MultiFab (Cell IV K : Type) where
  data : Cell → Int → K
  nGrowVect : IV

/-- Geometry that the mesh-array library derives from the box layout of the destination and
of the source: `grown ng cell` tells whether `cell` lies in the valid region of its box grown
by `ng`; `overlap f src_ng period cell` is the sum of the values `f` of the source cells (valid
region grown by `src_ng`, periodic images included) that lie on `cell`. -/
structure MeshGeometry (CellD CellS IV Per K : Type) where
  grown : IV → CellD → Bool
  overlap : (CellS → K) → IV → Per → CellD → K

/-- Modelled from the spec: `amrex::MultiFab::setVal(val, comp, ncomp, nghost)` is AMReX code,
not among the sources; it sets components `[comp, comp+ncomp)` to `val` over the valid cells
plus `nghost` guard cells. -/
def MultiFab.setVal {CellD CellS IV Per K : Type} (G : MeshGeometry CellD CellS IV Per K)
    (mf : MultiFab CellD IV K) (val : K) (comp ncomp : Int) (nghost : IV) :
    MultiFab CellD IV K :=
  { mf with
    data := fun cell n =>
      if G.grown nghost cell = true ∧ comp ≤ n ∧ n < comp + ncomp then val
      else mf.data cell n }

/-- Modelled from the spec: `amrex::MultiFab::ParallelAdd(src, scomp, dcomp, ncomp, src_nghost,
dst_nghost, period)` is AMReX code, not among the sources; over the valid cells of `dst` plus
`dst_nghost` guard cells it adds to component `dcomp + j` of `dst` the overlapping values of
component `scomp + j` of `src`, for `0 ≤ j < ncomp`. -/
def MultiFab.ParallelAdd {CellD CellS IV Per K : Type} [Add K]
    (G : MeshGeometry CellD CellS IV Per K)
    (dst : MultiFab CellD IV K) (src : MultiFab CellS IV K) (scomp dcomp ncomp : Int)
    (src_nghost dst_nghost : IV) (period : Per) : MultiFab CellD IV K :=
  { dst with
    data := fun cell n =>
      if G.grown dst_nghost cell = true ∧ dcomp ≤ n ∧ n < dcomp + ncomp then
        dst.data cell n + G.overlap (fun c => src.data c (scomp + (n - dcomp))) src_nghost period cell
      else dst.data cell n }

/-- One-array `WarpXSumGuardCells(mf, period, src_ngrow, icomp, ncomp)`
(WarpXSumGuardCells.H:27-40).  `SumBoundary` is `WarpXCommUtil::SumBoundary` (declared in
WarpXCommUtil.H, defined in a file that is not among the sources), `maxwell_solver_id` the static
`WarpX::maxwell_solver_id` and `PSATD` the enumerator `MaxwellSolverAlgo::PSATD`. -/
def WarpXSumGuardCells {Cell IV Per K : Type} [Zero IV]
    (SumBoundary : MultiFab Cell IV K → Int → Int → IV → IV → Per → MultiFab Cell IV K)
    (maxwell_solver_id PSATD : Int)
    (mf : MultiFab Cell IV K) (period : Per) (src_ngrow : IV) (icomp ncomp : Int) :
    MultiFab Cell IV K :=
  let n_updated_guards : IV :=
    if maxwell_solver_id = PSATD then mf.nGrowVect
    else 0
  SumBoundary mf icomp ncomp src_ngrow n_updated_guards period

/-- Two-array `WarpXSumGuardCells(dst, src, period, src_ngrow, icomp, ncomp)`
(WarpXSumGuardCells.H:57-74); returns `dst` (`src` is only read). -/
def WarpXSumGuardCellsDstSrc {CellD CellS IV Per K : Type} [Zero IV] [Zero K] [Add K]
    (G : MeshGeometry CellD CellS IV Per K) (maxwell_solver_id PSATD : Int)
    (dst : MultiFab CellD IV K) (src : MultiFab CellS IV K) (period : Per) (src_ngrow : IV)
    (icomp ncomp : Int) : MultiFab CellD IV K :=
  let n_updated_guards : IV :=
    if maxwell_solver_id = PSATD then dst.nGrowVect
    else 0
  let dst := MultiFab.setVal G dst 0 icomp ncomp n_updated_guards
  MultiFab.ParallelAdd G dst src 0 icomp ncomp src_ngrow n_updated_guards period

/-! ## `doParticlePush` -/

/-- The momentum kernels `doParticlePush` can call. -/
inductive MomentumKernel where
  | Boris
  | BorisWithRadiationReaction
  | Vay
  | HigueraCary
deriving DecidableEq, Repr

/-- Calls that `doParticlePush` makes, with their arguments, in the order of execution. -/
inductive PushEvent (K : Type) where
  | copyAttribs (i : Int)
  | UpdateMomentum (kernel : MomentumKernel) (u E B : Vec3 K) (q m dt : K)
  | GetPosition (i : Int)
  | UpdatePosition (x u : Vec3 K) (dt : K)
  | SetPosition (i : Int) (x : Vec3 K)
deriving DecidableEq

/-- Single-particle kernels whose headers are not among the sources (`UpdateMomentumBoris.H`,
`UpdateMomentumVay.H`, `UpdateMomentumHigueraCary.H`, `UpdatePosition.H`,
`QedUtils::chi_ele_pos`).  A momentum kernel maps `(u, E, B, q, m, dt)` to the new `u`;
`UpdatePosition` maps `(x, u, dt)` to the new position. -/
structure PushKernels (K : Type) where
  UpdateMomentumBoris : Vec3 K → Vec3 K → Vec3 K → K → K → K → Vec3 K
  UpdateMomentumVay : Vec3 K → Vec3 K → Vec3 K → K → K → K → Vec3 K
  UpdateMomentumHigueraCary : Vec3 K → Vec3 K → Vec3 K → K → K → K → Vec3 K
  UpdatePosition : Vec3 K → Vec3 K → K → Vec3 K
  chi_ele_pos : Vec3 K → Vec3 K → Vec3 K → K

/-- `UpdateMomentumBorisWithRadiationReaction`
(UpdateMomentumBorisWithRadiationReaction.H:20-89), with the regular Boris pusher it calls
passed as `Boris`. -/
def UpdateMomentumBorisWithRadiationReaction {K : Type} [LinearOrderedField K]
    (F : Numerics K) (P : PhysConst K)
    (Boris : Vec3 K → Vec3 K → Vec3 K → K → K → K → Vec3 K)
    (u E B : Vec3 K) (q m dt : K) : Vec3 K :=
  let ux_old := u.x
  let uy_old := u.y
  let uz_old := u.z
  let inv_c2 := 1 / (P.c * P.c)
  let u := Boris u E B q m dt
  let ux_n := (u.x + ux_old) * 0.5
  let uy_n := (u.y + uy_old) * 0.5
  let uz_n := (u.z + uz_old) * 0.5
  let gamma_n := F.sqrt (1 + (ux_n * ux_n + uy_n * uy_n + uz_n * uz_n) * inv_c2)
  let inv_gamma_n := 1.0 / gamma_n
  let vx_n := ux_n * inv_gamma_n
  let vy_n := uy_n * inv_gamma_n
  let vz_n := uz_n * inv_gamma_n
  let bx_n := vx_n / P.c
  let by_n := vy_n / P.c
  let bz_n := vz_n / P.c
  let flx_q := E.x + vy_n * B.z - vz_n * B.y
  let fly_q := E.y + vz_n * B.x - vx_n * B.z
  let flz_q := E.z + vx_n * B.y - vy_n * B.x
  let fl_q2 := flx_q * flx_q + fly_q * fly_q + flz_q * flz_q
  let bdotE := bx_n * E.x + by_n * E.y + bz_n * E.z
  let bdotE2 := bdotE * bdotE
  let coeff := gamma_n * gamma_n * (fl_q2 - bdotE2)
  let q_over_mc := q / (m * P.c)
  let RRcoeff := (2.0 / 3.0) * P.r_e * q_over_mc * q_over_mc
  let frx := RRcoeff * (P.c * (fly_q * B.z - flz_q * B.y) + bdotE * E.x - coeff * bx_n)
  let fry := RRcoeff * (P.c * (flz_q * B.x - flx_q * B.z) + bdotE * E.y - coeff * by_n)
  let frz := RRcoeff * (P.c * (flx_q * B.y - fly_q * B.x) + bdotE * E.z - coeff * bz_n)
  ⟨u.x + frx * dt, u.y + fry * dt, u.z + frz * dt⟩

/-- The function behind each kernel name. -/
def MomentumKernel.run {K : Type} [LinearOrderedField K] (F : Numerics K) (P : PhysConst K)
    (Kn : PushKernels K) :
    MomentumKernel → Vec3 K → Vec3 K → Vec3 K → K → K → K → Vec3 K
  | .Boris => Kn.UpdateMomentumBoris
  | .BorisWithRadiationReaction =>
      UpdateMomentumBorisWithRadiationReaction F P Kn.UpdateMomentumBoris
  | .Vay => Kn.UpdateMomentumVay
  | .HigueraCary => Kn.UpdateMomentumHigueraCary

/-- Enumerators of `ParticlePusherAlgo` (`Utils/WarpXAlgorithmSelection.H`, not among the
sources; PushSelector.H:36 documents `0: Boris, 1: Vay, 2: HigueraCary`). -/
structure ParticlePusherAlgo where
  Boris : Int
  Vay : Int
  HigueraCary : Int

/-- What `doParticlePush` reads and writes: the momentum `ux, uy, uz` (passed by reference), the
particle positions behind `GetPosition` / `SetPosition`, and the calls made so far. -/
structure PushState (K : Type) where
  u : Vec3 K
  pos : Int → Vec3 K
  trace : List (PushEvent K)

namespace PushState

/-- `copyAttribs(i)`. -/
def copyAttribs {K : Type} (s : PushState K) (i : Int) : PushState K :=
  { s with trace := s.trace ++ [PushEvent.copyAttribs i] }

/-- One call `UpdateMomentum<kernel>(ux, uy, uz, Ex, Ey, Ez, Bx, By, Bz, q, m, dt)`. -/
def UpdateMomentum {K : Type} [LinearOrderedField K] (F : Numerics K) (P : PhysConst K)
    (Kn : PushKernels K) (s : PushState K) (kernel : MomentumKernel) (E B : Vec3 K)
    (q m dt : K) : PushState K :=
  { s with
    u := kernel.run F P Kn s.u E B q m dt
    trace := s.trace ++ [PushEvent.UpdateMomentum kernel s.u E B q m dt] }

/-- `GetPosition(i, x, y, z)`: returns the position read. -/
def GetPosition {K : Type} (s : PushState K) (i : Int) : Vec3 K × PushState K :=
  (s.pos i, { s with trace := s.trace ++ [PushEvent.GetPosition i] })

/-- `UpdatePosition(x, y, z, ux, uy, uz, dt)`: returns the new `x, y, z`. -/
def UpdatePosition {K : Type} (Kn : PushKernels K) (s : PushState K) (x : Vec3 K) (dt : K) :
    Vec3 K × PushState K :=
  (Kn.UpdatePosition x s.u dt, { s with trace := s.trace ++ [PushEvent.UpdatePosition x s.u dt] })

/-- `SetPosition(i, x, y, z)`. -/
def SetPosition {K : Type} (s : PushState K) (i : Int) (x : Vec3 K) : PushState K :=
  { s with
    pos := fun j => if j = i then x else s.pos j
    trace := s.trace ++ [PushEvent.SetPosition i x] }

end PushState

/-- `doParticlePush` (PushSelector.H:43-143).  `qed` tells whether `WARPX_QED` is defined
(`do_sync` and `t_chi_max` are parameters only then); `amrex::Abort(msg)` is `Except.error msg`.
The `int`s `do_crr`, `do_copy`, `do_sync`, `ion_lev` are tested as C++ conditions (non-zero). -/
def doParticlePush {K : Type} [LinearOrderedField K] (F : Numerics K) (P : PhysConst K)
    (Kn : PushKernels K) (A : ParticlePusherAlgo) (qed : Bool)
    (s : PushState K) (i : Int) (E B : Vec3 K) (ion_lev : Int) (m q : K)
    (pusher_algo do_crr do_copy do_sync : Int) (t_chi_max : K) (dt : K) :
    Except String (PushState K) :=
  let s := if do_copy ≠ 0 then s.copyAttribs i else s
  if do_crr ≠ 0 then
    if qed then
      if do_sync ≠ 0 then
        let chi := Kn.chi_ele_pos ⟨m * s.u.x, m * s.u.y, m * s.u.z⟩ E B
        let s :=
          if chi < t_chi_max then
            s.UpdateMomentum F P Kn MomentumKernel.BorisWithRadiationReaction E B q m dt
          else
            s.UpdateMomentum F P Kn MomentumKernel.Boris E B q m dt
        let (x, s) := s.GetPosition i
        let (x, s) := s.UpdatePosition Kn x dt
        let s := s.SetPosition i x
        Except.ok s
      else
        let s := s.UpdateMomentum F P Kn MomentumKernel.BorisWithRadiationReaction E B q m dt
        let (x, s) := s.GetPosition i
        let (x, s) := s.UpdatePosition Kn x dt
        let s := s.SetPosition i x
        Except.ok s
    else
      let qp := q
      let qp := if ion_lev ≠ 0 then qp * (ion_lev : K) else qp
      let s := s.UpdateMomentum F P Kn MomentumKernel.BorisWithRadiationReaction E B qp m dt
      let (x, s) := s.GetPosition i
      let (x, s) := s.UpdatePosition Kn x dt
      let s := s.SetPosition i x
      Except.ok s
  else if pusher_algo = A.Boris then
    let qp := q
    let qp := if ion_lev ≠ 0 then qp * (ion_lev : K) else qp
    let s := s.UpdateMomentum F P Kn MomentumKernel.Boris E B qp m dt
    let (x, s) := s.GetPosition i
    let (x, s) := s.UpdatePosition Kn x dt
    let s := s.SetPosition i x
    Except.ok s
  else if pusher_algo = A.Vay then
    let qp := q
    let qp := if ion_lev ≠ 0 then qp * (ion_lev : K) else qp
    let s := s.UpdateMomentum F P Kn MomentumKernel.Vay E B qp m dt
    let (x, s) := s.GetPosition i
    let (x, s) := s.UpdatePosition Kn x dt
    let s := s.SetPosition i x
    Except.ok s
  else if pusher_algo = A.HigueraCary then
    let qp := q
    let qp := if ion_lev ≠ 0 then qp * (ion_lev : K) else qp
    let s := s.UpdateMomentum F P Kn MomentumKernel.HigueraCary E B qp m dt
    let (x, s) := s.GetPosition i
    let (x, s) := s.UpdatePosition Kn x dt
    let s := s.SetPosition i x
    Except.ok s
  else
    Except.error "Unknown particle pusher"

/-- Events of a trace that update the momentum. -/
def PushEvent.isMomentumUpdate {K : Type} : PushEvent K → Bool
  | .UpdateMomentum _ _ _ _ _ _ _ => true
  | _ => false

/-- Events of a trace that update the position. -/
def PushEvent.isPositionUpdate {K : Type} : PushEvent K → Bool
  | .UpdatePosition _ _ _ => true
  | _ => false

/-- The state expected after one momentum update by `kernel` with charge `qp` followed by one
position update of particle `i` that uses the updated momentum, with the four calls
appended to the trace. -/
def PushState.pushed {K : Type} [LinearOrderedField K] (F : Numerics K) (P : PhysConst K)
    (Kn : PushKernels K) (s : PushState K) (kernel : MomentumKernel) (i : Int) (E B : Vec3 K)
    (qp m dt : K) : PushState K :=
  { u := kernel.run F P Kn s.u E B qp m dt
    pos := fun j =>
      if j = i then Kn.UpdatePosition (s.pos i) (kernel.run F P Kn s.u E B qp m dt) dt
      else s.pos j
    trace := s.trace ++
      [PushEvent.UpdateMomentum kernel s.u E B qp m dt,
       PushEvent.GetPosition i,
       PushEvent.UpdatePosition (s.pos i) (kernel.run F P Kn s.u E B qp m dt) dt,
       PushEvent.SetPosition i
         (Kn.UpdatePosition (s.pos i) (kernel.run F P Kn s.u E B qp m dt) dt)] }

/-! ## `ProtonBoronFusionInitializeMomentum` as a call on its three tiles -/

/-- The three particle tiles that `ProtonBoronFusionInitializeMomentum` receives: `soa_1` and
`soa_2` (the colliding species, passed as `const&`) and `soa_alpha` (the product species). -/
structure FusionTiles (K : Type) where
  soa_1 : SoaData K
  soa_2 : SoaData K
  soa_alpha : SoaData K

/-- One call of `ProtonBoronFusionInitializeMomentum` seen from the caller: every assignment of
the function is to `soa_alpha.m_rdata` (lines 230-247), the colliding species are only read
(lines 96-101). -/
def ProtonBoronFusionInitializeMomentum.call {K : Type} [LinearOrderedField K]
    (F : Numerics K) (P : PhysConst K) (t : FusionTiles K)
    (idx_1 idx_2 idx_alpha_start : Nat) (m1 m2 : K) (r1 r2 r3 r4 : K) : FusionTiles K :=
  { t with
    soa_alpha := ProtonBoronFusionInitializeMomentum F P t.soa_1 t.soa_2 t.soa_alpha
      idx_1 idx_2 idx_alpha_start m1 m2 r1 r2 r3 r4 }

/-! ## `GetExternalEBField` -/

/-- Scalar product `a.x*b.x + a.y*b.y + a.z*b.z`. -/
def Vec3.dot {K : Type} [Mul K] [Add K] (a b : Vec3 K) : K :=
  a.x * b.x + a.y * b.y + a.z * b.z

/-- `enum ExternalFieldInitType` (GetExternalFields.H:15). -/
inductive ExternalFieldInitType where
  | None
  | Constant
  | Parser
  | RepeatedPlasmaLens
  | Unknown
deriving DecidableEq, Repr

/-- Data members of `struct GetExternalEBField` (GetExternalFields.H:27-55).  The two
`GpuArray<ParticleReal, 3>` are triples (`[0], [1], [2]` are `x, y, z`), a `ParserExecutor<4>`
is a function of `(x, y, z, t)`, `m_get_position` returns the position of particle `i`, and the
pointers are arrays indexed by an integer. -/
structure GetExternalEBField (K : Type) where
  m_Etype : ExternalFieldInitType
  m_Btype : ExternalFieldInitType
  m_gamma_boost : K
  m_uz_boost : K
  m_Efield_value : Vec3 K
  m_Bfield_value : Vec3 K
  m_Exfield_partparser : K → K → K → K → K
  m_Eyfield_partparser : K → K → K → K → K
  m_Ezfield_partparser : K → K → K → K → K
  m_Bxfield_partparser : K → K → K → K → K
  m_Byfield_partparser : K → K → K → K → K
  m_Bzfield_partparser : K → K → K → K → K
  m_get_position : Int → Vec3 K
  m_time : K
  m_repeated_plasma_lens_period : K
  m_repeated_plasma_lens_starts : Int → K
  m_repeated_plasma_lens_lengths : Int → K
  m_repeated_plasma_lens_strengths_E : Int → K
  m_repeated_plasma_lens_strengths_B : Int → K
  m_n_lenses : Int
  m_dt : K
  m_ux : Int → K
  m_uy : Int → K
  m_uz : Int → K

/-- Local variables `Ex, ..., Bz` of `GetExternalEBField::operator()`: `E`, `B` hold their
values when the boost block is reached (line 167), `E_boost`, `B_boost` their values after it
(line 179), which are the ones added to the particle fields. -/
structure ExternalFieldLocals (K : Type) where
  E : Vec3 K
  B : Vec3 K
  E_boost : Vec3 K
  B_boost : Vec3 K

/-- Body of `GetExternalEBField::operator()` from the declaration of `Ex, ..., Bz` to the end
of the boost block (GetExternalFields.H:70-179).  `static_cast<int>(std::floor(..))` is the
integer floor and `%` on `int` truncates towards zero. -/
def GetExternalEBField.locals {K : Type} [LinearOrderedField K] [FloorRing K]
    (F : Numerics K) (P : PhysConst K) (g : GetExternalEBField K) (i : Int) :
    ExternalFieldLocals K :=
  let Ex : K := 0
  let Ey : K := 0
  let Ez : K := 0
  let Bx : K := 0
  let By : K := 0
  let Bz : K := 0
  let inv_c2 := 1 / (P.c * P.c)
  let E0 : Vec3 K :=
    if g.m_Etype = ExternalFieldInitType.Constant then
      ⟨g.m_Efield_value.x, g.m_Efield_value.y, g.m_Efield_value.z⟩
    else if g.m_Etype = ExternalFieldInitType.Parser then
      let pos := g.m_get_position i
      let x := pos.x
      let y := pos.y
      let z := pos.z
      let lab_time := g.m_time
      let boosted : K × K :=
        if g.m_gamma_boost > 1 then
          let lab_time := g.m_gamma_boost * g.m_time + g.m_uz_boost * z * inv_c2
          let z := g.m_gamma_boost * z + g.m_uz_boost * g.m_time
          (lab_time, z)
        else (lab_time, z)
      let lab_time := boosted.1
      let z := boosted.2
      ⟨g.m_Exfield_partparser x y z lab_time, g.m_Eyfield_partparser x y z lab_time,
        g.m_Ezfield_partparser x y z lab_time⟩
    else ⟨Ex, Ey, Ez⟩
  let B0 : Vec3 K :=
    if g.m_Btype = ExternalFieldInitType.Constant then
      ⟨g.m_Bfield_value.x, g.m_Bfield_value.y, g.m_Bfield_value.z⟩
    else if g.m_Btype = ExternalFieldInitType.Parser then
      let pos := g.m_get_position i
      let x := pos.x
      let y := pos.y
      let z := pos.z
      let lab_time := g.m_time
      let boosted : K × K :=
        if g.m_gamma_boost > 1 then
          let lab_time := g.m_gamma_boost * g.m_time + g.m_uz_boost * z * inv_c2
          let z := g.m_gamma_boost * z + g.m_uz_boost * g.m_time
          (lab_time, z)
        else (lab_time, z)
      let lab_time := boosted.1
      let z := boosted.2
      ⟨g.m_Bxfield_partparser x y z lab_time, g.m_Byfield_partparser x y z lab_time,
        g.m_Bzfield_partparser x y z lab_time⟩
    else ⟨Bx, By, Bz⟩
  let EB1 : Vec3 K × Vec3 K :=
    if g.m_Etype = ExternalFieldInitType.RepeatedPlasmaLens ∨
        g.m_Btype = ExternalFieldInitType.RepeatedPlasmaLens then
      let pos := g.m_get_position i
      let x := pos.x
      let y := pos.y
      let z := pos.z
      let uxp := g.m_ux i
      let uyp := g.m_uy i
      let uzp := g.m_uz i
      let gamma := F.sqrt (1 + (uxp * uxp + uyp * uyp + uzp * uzp) * inv_c2)
      let vzp := uzp / gamma
      let zl := z
      let zr := z + vzp * g.m_dt
      let zlr : K × K :=
        if g.m_gamma_boost > 1 then
          (g.m_gamma_boost * zl + g.m_uz_boost * g.m_time,
            g.m_gamma_boost * zr + g.m_uz_boost * (g.m_time + g.m_dt))
        else (zl, zr)
      let zl := zlr.1
      let zr := zlr.2
      let i_lens : Int := Int.floor (zl / g.m_repeated_plasma_lens_period)
      let i_lens : Int := Int.tmod i_lens g.m_n_lenses
      let lens_start :=
        g.m_repeated_plasma_lens_starts i_lens + (i_lens : K) * g.m_repeated_plasma_lens_period
      let lens_end := lens_start + g.m_repeated_plasma_lens_lengths i_lens
      let fl : K := 0
      let fl : K := if zl ≥ lens_start ∧ zl < lens_end then 1 else fl
      let fr : K := 0
      let fr : K := if zr ≥ lens_start ∧ zr < lens_end then 1 else fr
      let frac := fl
      let frac := if fl > fr then (lens_end - zl) / (zr - zl) else frac
      let frac := if fr > fl then (zr - lens_start) / (zr - zl) else frac
      (⟨E0.x + x * frac * g.m_repeated_plasma_lens_strengths_E i_lens,
          E0.y + y * frac * g.m_repeated_plasma_lens_strengths_E i_lens, E0.z⟩,
        ⟨B0.x + y * frac * g.m_repeated_plasma_lens_strengths_B i_lens,
          B0.y + -x * frac * g.m_repeated_plasma_lens_strengths_B i_lens, B0.z⟩)
    else (E0, B0)
  let Ex := EB1.1.x
  let Ey := EB1.1.y
  let Ez := EB1.1.z
  let Bx := EB1.2.x
  let By := EB1.2.y
  let Bz := EB1.2.z
  let EB2 : Vec3 K × Vec3 K :=
    if g.m_gamma_boost > 1 then
      let Ex_boost := g.m_gamma_boost * Ex - g.m_uz_boost * By
      let Ey_boost := g.m_gamma_boost * Ey + g.m_uz_boost * Bx
      let Bx_boost := g.m_gamma_boost * Bx + g.m_uz_boost * Ey * inv_c2
      let By_boost := g.m_gamma_boost * By - g.m_uz_boost * Ex * inv_c2
      (⟨Ex_boost, Ey_boost, Ez⟩, ⟨Bx_boost, By_boost, Bz⟩)
    else (⟨Ex, Ey, Ez⟩, ⟨Bx, By, Bz⟩)
  { E := ⟨Ex, Ey, Ez⟩
    B := ⟨Bx, By, Bz⟩
    E_boost := EB2.1
    B_boost := EB2.2 }

/-- `GetExternalEBField::operator()` (GetExternalFields.H:57-187): `field_E`, `field_B` are the
incoming values of the six references `field_Ex, ..., field_Bz`, the result their values on
return. -/
def GetExternalEBField.operator {K : Type} [LinearOrderedField K] [FloorRing K]
    (F : Numerics K) (P : PhysConst K) (g : GetExternalEBField K) (i : Int)
    (field_E field_B : Vec3 K) : Vec3 K × Vec3 K :=
  if g.m_Etype = ExternalFieldInitType.None ∧ g.m_Btype = ExternalFieldInitType.None then
    (field_E, field_B)
  else
    let l := GetExternalEBField.locals F P g i
    (⟨field_E.x + l.E_boost.x, field_E.y + l.E_boost.y, field_E.z + l.E_boost.z⟩,
      ⟨field_B.x + l.B_boost.x, field_B.y + l.B_boost.y, field_B.z + l.B_boost.z⟩)

/-! ## `SpectralSolver`: forward and backward transforms -/

/-- Modelled from the spec: the Fourier-transform collaborator (spec, section 6: an opaque
forward/inverse transform of one array block, consistent with the domain decomposition of the
level).  `R` is a real-space component over the mesh, `S` its spectral representation; the
first argument is the mesh refinement level. -/
structure FourierTransform (R S : Type) where
  forward : Int → R → S
  backward : Int → S → R

/-- Modelled from the spec: the spectral field store `SpectralFieldData` (spec, sections 2.6
and 3: each spectral field index has a fixed slot holding one spectral array); the class is
defined in `SpectralFieldData.H`, which is not among the sources. -/
structure SpectralFieldData (S : Type) where
  fields : Int → S

/-- The data member `field_data` of `class SpectralSolver` (SpectralSolver.H:201). -/
structure SpectralSolver (S : Type) where
  field_data : SpectralFieldData S

/-- Modelled from the spec: `SpectralSolver::ForwardTransform(lev, mf, field_index, i_comp)` is
declared at SpectralSolver.H:97-100 and defined in a file that is not among the sources.
Spec, section 4.4: it takes one real-space component, transforms it, and stores it at a fixed
spectral-field slot; `mf` is `const` and is not changed. -/
def SpectralSolver.ForwardTransform {Cell IV K S : Type}
    (T : FourierTransform (Cell → K) S) (solver : SpectralSolver S) (lev : Int)
    (mf : MultiFab Cell IV K) (field_index : Int) (i_comp : Int) : SpectralSolver S :=
  { field_data :=
      { fields := fun slot =>
          if slot = field_index then T.forward lev (fun cell => mf.data cell i_comp)
          else solver.field_data.fields slot } }

/-- Modelled from the spec: `SpectralSolver::BackwardTransform(lev, mf, field_index, i_comp)`
is declared at SpectralSolver.H:106-109 and defined in a file that is not among the sources.
SpectralSolver.H:102-105: it transforms the spectral field `field_index` back to real space
and stores it in the component `i_comp` of `mf`; returns `mf`. -/
def SpectralSolver.BackwardTransform {Cell IV K S : Type}
    (T : FourierTransform (Cell → K) S) (solver : SpectralSolver S) (lev : Int)
    (mf : MultiFab Cell IV K) (field_index : Int) (i_comp : Int) : MultiFab Cell IV K :=
  { mf with
    data := fun cell n =>
      if n = i_comp then T.backward lev (solver.field_data.fields field_index) cell
      else mf.data cell n }

/-- The normalized momentum `(ux, uy, uz)` of the particle at `idx`, as read at
ProtonBoronFusionInitializeMomentum.H:96-101. -/
def SoaData.u {K : Type} (s : SoaData K) (idx : Nat) : Vec3 K :=
  ⟨s.m_rdata PIdx.ux idx, s.m_rdata PIdx.uy idx, s.m_rdata PIdx.uz idx⟩

/-- Componentwise quotient by a scalar, `u / m`. -/
def Vec3.div {K : Type} [Div K] (u : Vec3 K) (m : K) : Vec3 K :=
  ⟨u.x / m, u.y / m, u.z / m⟩

/-- A functor `GetExternalEBField` with both field types `Constant`: the external field is
`(E, B)` for every particle, boosted with `gamma_boost`, `uz_boost`; the members that the
`Constant` branches do not read are zero. -/
def GetExternalEBField.constantFields {K : Type} [LinearOrderedField K]
    (E B : Vec3 K) (gamma_boost uz_boost : K) : GetExternalEBField K :=
  { m_Etype := ExternalFieldInitType.Constant
    m_Btype := ExternalFieldInitType.Constant
    m_gamma_boost := gamma_boost
    m_uz_boost := uz_boost
    m_Efield_value := E
    m_Bfield_value := B
    m_Exfield_partparser := fun _ _ _ _ => 0
    m_Eyfield_partparser := fun _ _ _ _ => 0
    m_Ezfield_partparser := fun _ _ _ _ => 0
    m_Bxfield_partparser := fun _ _ _ _ => 0
    m_Byfield_partparser := fun _ _ _ _ => 0
    m_Bzfield_partparser := fun _ _ _ _ => 0
    m_get_position := fun _ => ⟨0, 0, 0⟩
    m_time := 0
    m_repeated_plasma_lens_period := 1
    m_repeated_plasma_lens_starts := fun _ => 0
    m_repeated_plasma_lens_lengths := fun _ => 0
    m_repeated_plasma_lens_strengths_E := fun _ => 0
    m_repeated_plasma_lens_strengths_B := fun _ => 0
    m_n_lenses := 1
    m_dt := 0
    m_ux := fun _ => 0
    m_uy := fun _ => 0
    m_uz := fun _ => 0 }

/-! ## The Fourier transform of one block -/

/-- Modelled from the spec: the forward transform of the Fourier-transform collaborator (spec,
section 6; the FFT calls live in `SpectralFieldData`, which is not among the sources) along one
axis of `n` cells is the discrete Fourier transform, with kernel `ω^(k*j)` for an `n`-th root
of unity `ω`. -/
def dftMatrix {L : Type} [Field L] (n : Nat) (ω : L) : Matrix (Fin n) (Fin n) L :=
  Matrix.of fun k j => ω ^ (k.val * j.val)

/-- Modelled from the spec: the inverse transform of the Fourier-transform collaborator along one
axis of `n` cells, the normalized inverse discrete Fourier transform with kernel
`(1/n) * ω^(-(k*j))`. -/
def idftMatrix {L : Type} [Field L] (n : Nat) (ω : L) : Matrix (Fin n) (Fin n) L :=
  Matrix.of fun j k => (n : L)⁻¹ * (ω ^ (k.val * j.val))⁻¹

/-- Modelled from the spec: the forward transform of a block of `nx × ny × nz` cells, the
discrete Fourier transform along each of the three axes (an axis with one cell is not
transformed, which gives the 1D and 2D geometries). -/
def dftMatrix3 {L : Type} [Field L] (nx ny nz : Nat) (ωx ωy ωz : L) :
    Matrix (Fin nx × Fin ny × Fin nz) (Fin nx × Fin ny × Fin nz) L :=
  Matrix.kronecker (dftMatrix nx ωx) (Matrix.kronecker (dftMatrix ny ωy) (dftMatrix nz ωz))

/-- Modelled from the spec: the inverse transform of a block of `nx × ny × nz` cells. -/
def idftMatrix3 {L : Type} [Field L] (nx ny nz : Nat) (ωx ωy ωz : L) :
    Matrix (Fin nx × Fin ny × Fin nz) (Fin nx × Fin ny × Fin nz) L :=
  Matrix.kronecker (idftMatrix nx ωx) (Matrix.kronecker (idftMatrix ny ωy) (idftMatrix nz ωz))

/-- Modelled from the spec: the Fourier-transform collaborator for a block of `nx × ny × nz`
cells.  Real-space values are in `K`, spectral values in `L`; `embed` takes a real value to
the spectral field and `re` is the real part.  The forward transform applies `dftMatrix3` to
the embedded component, the backward transform takes the real part of `idftMatrix3` applied
to the spectral array. -/
def FourierTransform.dft {K L : Type} [Field L] (embed : K → L) (re : L → K)
    (nx ny nz : Nat) (ωx ωy ωz : L) :
    FourierTransform (Fin nx × Fin ny × Fin nz → K) (Fin nx × Fin ny × Fin nz → L) :=
  { forward := fun _ f => (dftMatrix3 nx ny nz ωx ωy ωz).mulVec (fun cell => embed (f cell))
    backward := fun _ G => fun cell => re ((idftMatrix3 nx ny nz ωx ωy ωz).mulVec G cell) }

/-! ## Properties -/

section RealArithmetic

/-- `getRandomVector` over any field: the third component is `2*r2 - 1`. -/
theorem getRandomVector_z {K : Type} [LinearOrderedField K] (F : Numerics K) (r1 r2 : K) :
    (ParticleUtils.getRandomVector F r1 r2).z = 2 * r2 - 1 := rfl

/-- Squared norm of the vector of `getRandomVector` when `sqrt`, `cos`, `sin` are the real
ones and the second draw lies in `[0, 1]`. -/
theorem getRandomVector_norm_sq (tiny r1 r2 : ℝ) (h0 : 0 ≤ r2) (h1 : r2 ≤ 1) :
    (ParticleUtils.getRandomVector
        (Numerics.mk Real.sqrt Real.cos Real.sin Real.pi tiny) r1 r2).x ^ 2 +
      (ParticleUtils.getRandomVector
        (Numerics.mk Real.sqrt Real.cos Real.sin Real.pi tiny) r1 r2).y ^ 2 +
      (ParticleUtils.getRandomVector
        (Numerics.mk Real.sqrt Real.cos Real.sin Real.pi tiny) r1 r2).z ^ 2 = 1 := by
  have hz : 0 ≤ 1 - (2 * r2 - 1) * (2 * r2 - 1) := by nlinarith
  have hs := Real.sq_sqrt hz
  have hcs := Real.cos_sq_add_sin_sq (r1 * 2 * Real.pi)
  simp only [ParticleUtils.getRandomVector]
  calc (Real.sqrt (1 - (2 * r2 - 1) * (2 * r2 - 1)) * Real.cos (r1 * 2 * Real.pi)) ^ 2 +
        (Real.sqrt (1 - (2 * r2 - 1) * (2 * r2 - 1)) * Real.sin (r1 * 2 * Real.pi)) ^ 2 +
        (2 * r2 - 1) ^ 2
      = Real.sqrt (1 - (2 * r2 - 1) * (2 * r2 - 1)) ^ 2 *
          (Real.cos (r1 * 2 * Real.pi) ^ 2 + Real.sin (r1 * 2 * Real.pi) ^ 2) +
          (2 * r2 - 1) ^ 2 := by ring
    _ = 1 := by rw [hs, hcs]; ring

/-- C3: for draws `r1, r2` in `[0, 1)`, `getRandomVector` returns `(x, y, z)` with
`x*x + y*y + z*z = 1` in exact real arithmetic, where `z = 2*r2 - 1` lies in `[-1, 1)`. -/
theorem getRandomVector_unit (tiny r1 r2 : ℝ) (hr1 : 0 ≤ r1 ∧ r1 < 1) (hr2 : 0 ≤ r2 ∧ r2 < 1) :
    (ParticleUtils.getRandomVector
        (Numerics.mk Real.sqrt Real.cos Real.sin Real.pi tiny) r1 r2).normSq = 1 ∧
    (ParticleUtils.getRandomVector
        (Numerics.mk Real.sqrt Real.cos Real.sin Real.pi tiny) r1 r2).z = 2 * r2 - 1 ∧
    -1 ≤ (ParticleUtils.getRandomVector
        (Numerics.mk Real.sqrt Real.cos Real.sin Real.pi tiny) r1 r2).z ∧
    (ParticleUtils.getRandomVector
        (Numerics.mk Real.sqrt Real.cos Real.sin Real.pi tiny) r1 r2).z < 1 := by
  have h := getRandomVector_norm_sq tiny r1 r2 hr2.1 hr2.2.le
  refine ⟨?_, rfl, ?_, ?_⟩
  · unfold Vec3.normSq; linear_combination h
  · rw [getRandomVector_z]; linarith [hr2.1]
  · rw [getRandomVector_z]; linarith [hr2.2]

/-- Witness of C3 at the draws `r1 = 1/4`, `r2 = 1/2`. -/
theorem getRandomVector_unit_witness :
    (0 ≤ (1/4 : ℝ) ∧ (1/4 : ℝ) < 1) ∧ (0 ≤ (1/2 : ℝ) ∧ (1/2 : ℝ) < 1) ∧
    (ParticleUtils.getRandomVector
        (Numerics.mk Real.sqrt Real.cos Real.sin Real.pi 0) (1/4) (1/2)).normSq = 1 :=
  ⟨by norm_num, by norm_num,
    (getRandomVector_unit 0 (1/4) (1/2) (by norm_num) (by norm_num)).1⟩

/-- C4: for every `vp` and draws in `[0, 1)`, `RandomizeVelocity` leaves in `ux, uy, uz` a
vector with `ux*ux + uy*uy + uz*uz = vp*vp` (exact real arithmetic), and the result is the same
whatever the incoming values of `ux, uy, uz`. -/
theorem RandomizeVelocity_magnitude (tiny vp r1 r2 : ℝ) (u : Vec3 ℝ)
    (hr1 : 0 ≤ r1 ∧ r1 < 1) (hr2 : 0 ≤ r2 ∧ r2 < 1) :
    (ParticleUtils.RandomizeVelocity
        (Numerics.mk Real.sqrt Real.cos Real.sin Real.pi tiny) u vp r1 r2).normSq = vp * vp ∧
    ∀ u0 : Vec3 ℝ,
      ParticleUtils.RandomizeVelocity
          (Numerics.mk Real.sqrt Real.cos Real.sin Real.pi tiny) u0 vp r1 r2 =
        ParticleUtils.RandomizeVelocity
          (Numerics.mk Real.sqrt Real.cos Real.sin Real.pi tiny) u vp r1 r2 := by
  have h := getRandomVector_norm_sq tiny r1 r2 hr2.1 hr2.2.le
  refine ⟨?_, fun _ => rfl⟩
  simp only [ParticleUtils.RandomizeVelocity, Vec3.normSq]
  linear_combination (vp * vp) * h

/-- Witness of C4 at `vp = 3`, incoming momentum `(7, 8, 9)`, draws `1/4` and `1/2`. -/
theorem RandomizeVelocity_magnitude_witness :
    (ParticleUtils.RandomizeVelocity
        (Numerics.mk Real.sqrt Real.cos Real.sin Real.pi 0) ⟨7, 8, 9⟩ 3 (1/4) (1/2)).normSq
      = 3 * 3 :=
  (RandomizeVelocity_magnitude 0 3 (1/4) (1/2) ⟨7, 8, 9⟩ (by norm_num) (by norm_num)).1

/-- C1: total momentum is conserved by `ProtonBoronFusionInitializeMomentum`: whatever the
masses, the momenta of the colliding pair and the four random draws, the lab-frame momenta of
the three alphas add up to `m1*u1 + m2*u2`, component by component, in exact real arithmetic,
both when a boost is applied and when a zero-velocity branch is taken (the identity holds for
any `sqrt`, `cos`, `sin` on `ℝ`, the real ones in particular). -/
theorem ProtonBoronFusion_momentum_conservation (F : Numerics ℝ) (P : PhysConst ℝ)
    (u1 u2 : Vec3 ℝ) (m1 m2 r1 r2 r3 r4 : ℝ) :
    ((ProtonBoronFusionInitializeMomentum.locals F P u1 u2 m1 m2 r1 r2 r3 r4).p_alpha1.add
      ((ProtonBoronFusionInitializeMomentum.locals F P u1 u2 m1 m2 r1 r2 r3 r4).p_alpha2)).add
      ((ProtonBoronFusionInitializeMomentum.locals F P u1 u2 m1 m2 r1 r2 r3 r4).p_alpha3)
      = (Vec3.scale m1 u1).add (Vec3.scale m2 u2) := by
  simp only [ProtonBoronFusionInitializeMomentum.locals, Vec3.add, Vec3.scale, Vec3.mk.injEq]
  refine ⟨?_, ?_, ?_⟩ <;> ring

/-- The centre-of-mass velocity squared `vc_sq` of `ProtonBoronFusionInitializeMomentum`,
written out: `|(p1 + p2)/(m1*g1 + m2*g2)|^2`. -/
theorem ProtonBoronFusion_vc_sq (F : Numerics ℝ) (P : PhysConst ℝ)
    (u1 u2 : Vec3 ℝ) (m1 m2 r1 r2 r3 r4 : ℝ) :
    (ProtonBoronFusionInitializeMomentum.locals F P u1 u2 m1 m2 r1 r2 r3 r4).vc_sq =
      ((u1.x * m1 + u2.x * m2) /
          (m1 * F.sqrt (1 + u1.normSq * (1 / (P.c * P.c))) +
            m2 * F.sqrt (1 + u2.normSq * (1 / (P.c * P.c))))) ^ 2 +
      ((u1.y * m1 + u2.y * m2) /
          (m1 * F.sqrt (1 + u1.normSq * (1 / (P.c * P.c))) +
            m2 * F.sqrt (1 + u2.normSq * (1 / (P.c * P.c))))) ^ 2 +
      ((u1.z * m1 + u2.z * m2) /
          (m1 * F.sqrt (1 + u1.normSq * (1 / (P.c * P.c))) +
            m2 * F.sqrt (1 + u2.normSq * (1 / (P.c * P.c))))) ^ 2 := by
  simp only [ProtonBoronFusionInitializeMomentum.locals, Vec3.normSq]
  ring

/-- The ghost log of divisions by `vc_sq`: one entry exactly when the boost branch is taken. -/
theorem ProtonBoronFusion_div_vc_sq {K : Type} [LinearOrderedField K] (F : Numerics K)
    (P : PhysConst K) (u1 u2 : Vec3 K) (m1 m2 r1 r2 r3 r4 : K) :
    (ProtonBoronFusionInitializeMomentum.locals F P u1 u2 m1 m2 r1 r2 r3 r4).div_vc_sq =
      if (ProtonBoronFusionInitializeMomentum.locals F P u1 u2 m1 m2 r1 r2 r3 r4).vc_sq >
          F.numeric_limits_min
      then [(ProtonBoronFusionInitializeMomentum.locals F P u1 u2 m1 m2 r1 r2 r3 r4).vc_sq]
      else [] := by
  simp only [ProtonBoronFusionInitializeMomentum.locals]
  exact apply_ite Prod.snd _ _ _

/-- The ghost log of divisions by `v_Be_sq`: one entry exactly when the boost branch is
taken. -/
theorem ProtonBoronFusion_div_v_Be_sq {K : Type} [LinearOrderedField K] (F : Numerics K)
    (P : PhysConst K) (u1 u2 : Vec3 K) (m1 m2 r1 r2 r3 r4 : K) :
    (ProtonBoronFusionInitializeMomentum.locals F P u1 u2 m1 m2 r1 r2 r3 r4).div_v_Be_sq =
      if (ProtonBoronFusionInitializeMomentum.locals F P u1 u2 m1 m2 r1 r2 r3 r4).v_Be_sq >
          F.numeric_limits_min
      then [(ProtonBoronFusionInitializeMomentum.locals F P u1 u2 m1 m2 r1 r2 r3 r4).v_Be_sq]
      else [] := by
  simp only [ProtonBoronFusionInitializeMomentum.locals]
  exact apply_ite Prod.snd _ _ _

/-- C10: the zero-velocity branches of `ProtonBoronFusionInitializeMomentum`.  With
`numeric_limits_min > 0` (the smallest positive normal number): whenever `vc_sq` is not greater
than it, and in particular when `p1 + p2 = 0`, the first alpha keeps its centre-of-mass
momentum, `p_alpha1 = p_star`, and no division by `vc_sq` is evaluated; whenever `v_Be_sq` is
not greater than it, `p_alpha2 = p_Bestar` and no division by `v_Be_sq` is evaluated; and a
division by a squared velocity that is evaluated never has a zero denominator. -/
theorem ProtonBoronFusion_zero_velocity_branch (F : Numerics ℝ) (P : PhysConst ℝ)
    (u1 u2 : Vec3 ℝ) (m1 m2 r1 r2 r3 r4 : ℝ) (hmin : 0 < F.numeric_limits_min) :
    (¬ (ProtonBoronFusionInitializeMomentum.locals F P u1 u2 m1 m2 r1 r2 r3 r4).vc_sq >
          F.numeric_limits_min →
      (ProtonBoronFusionInitializeMomentum.locals F P u1 u2 m1 m2 r1 r2 r3 r4).p_alpha1 =
          (ProtonBoronFusionInitializeMomentum.locals F P u1 u2 m1 m2 r1 r2 r3 r4).p_star ∧
        (ProtonBoronFusionInitializeMomentum.locals F P u1 u2 m1 m2 r1 r2 r3 r4).div_vc_sq
          = []) ∧
    ((Vec3.scale m1 u1).add (Vec3.scale m2 u2) = ⟨0, 0, 0⟩ →
      (ProtonBoronFusionInitializeMomentum.locals F P u1 u2 m1 m2 r1 r2 r3 r4).vc_sq = 0 ∧
        ¬ (ProtonBoronFusionInitializeMomentum.locals F P u1 u2 m1 m2 r1 r2 r3 r4).vc_sq >
          F.numeric_limits_min) ∧
    (¬ (ProtonBoronFusionInitializeMomentum.locals F P u1 u2 m1 m2 r1 r2 r3 r4).v_Be_sq >
          F.numeric_limits_min →
      (ProtonBoronFusionInitializeMomentum.locals F P u1 u2 m1 m2 r1 r2 r3 r4).p_alpha2 =
          (ProtonBoronFusionInitializeMomentum.locals F P u1 u2 m1 m2 r1 r2 r3 r4).p_Bestar ∧
        (ProtonBoronFusionInitializeMomentum.locals F P u1 u2 m1 m2 r1 r2 r3 r4).div_v_Be_sq
          = []) ∧
    (∀ d ∈ (ProtonBoronFusionInitializeMomentum.locals F P u1 u2 m1 m2 r1 r2 r3 r4).div_vc_sq ++
        (ProtonBoronFusionInitializeMomentum.locals F P u1 u2 m1 m2 r1 r2 r3 r4).div_v_Be_sq,
      d ≠ 0) := by
  refine ⟨?_, ?_, ?_, ?_⟩
  · intro h
    simp only [ProtonBoronFusionInitializeMomentum.locals] at h ⊢
    rw [if_neg h]
    exact ⟨rfl, rfl⟩
  · intro h
    simp only [Vec3.add, Vec3.scale, Vec3.mk.injEq] at h
    obtain ⟨hx, hy, hz⟩ := h
    have h0 : (ProtonBoronFusionInitializeMomentum.locals F P u1 u2 m1 m2 r1 r2 r3 r4).vc_sq
        = 0 := by
      rw [ProtonBoronFusion_vc_sq]
      have ex : u1.x * m1 + u2.x * m2 = 0 := by linear_combination hx
      have ey : u1.y * m1 + u2.y * m2 = 0 := by linear_combination hy
      have ez : u1.z * m1 + u2.z * m2 = 0 := by linear_combination hz
      rw [ex, ey, ez]
      simp
    rw [h0]
    exact ⟨rfl, not_lt.mpr hmin.le⟩
  · intro h
    simp only [ProtonBoronFusionInitializeMomentum.locals] at h ⊢
    rw [if_neg h]
    exact ⟨rfl, rfl⟩
  · intro d hd
    rw [ProtonBoronFusion_div_vc_sq, ProtonBoronFusion_div_v_Be_sq, List.mem_append] at hd
    rcases hd with hd | hd
    · split_ifs at hd with hc
      · rw [List.mem_singleton] at hd
        rw [hd]
        exact (lt_trans hmin hc).ne.symm
      · simp at hd
    · split_ifs at hd with hc
      · rw [List.mem_singleton] at hd
        rw [hd]
        exact (lt_trans hmin hc).ne.symm
      · simp at hd

/-- Witness of C10 with `numeric_limits_min = 2^(-1022)` (IEEE double) and a head-on pair of
equal and opposite momenta, `p1 + p2 = 0`: the first alpha keeps its centre-of-mass momentum. -/
theorem ProtonBoronFusion_zero_velocity_branch_witness :
    (0 : ℝ) < (2 : ℝ) ^ (-1022 : ℤ) ∧
    (ProtonBoronFusionInitializeMomentum.locals
        (Numerics.mk Real.sqrt Real.cos Real.sin Real.pi ((2 : ℝ) ^ (-1022 : ℤ)))
        ⟨1, 1, 1, 1⟩ ⟨1, 0, 0⟩ ⟨-1, 0, 0⟩ 1 1 (1/4) (1/2) (1/4) (1/2)).p_alpha1 =
      (ProtonBoronFusionInitializeMomentum.locals
        (Numerics.mk Real.sqrt Real.cos Real.sin Real.pi ((2 : ℝ) ^ (-1022 : ℤ)))
        ⟨1, 1, 1, 1⟩ ⟨1, 0, 0⟩ ⟨-1, 0, 0⟩ 1 1 (1/4) (1/2) (1/4) (1/2)).p_star :=
  ⟨by positivity,
    ((ProtonBoronFusion_zero_velocity_branch
        (Numerics.mk Real.sqrt Real.cos Real.sin Real.pi ((2 : ℝ) ^ (-1022 : ℤ)))
        ⟨1, 1, 1, 1⟩ ⟨1, 0, 0⟩ ⟨-1, 0, 0⟩ 1 1 (1/4) (1/2) (1/4) (1/2) (by positivity)).1
      ((ProtonBoronFusion_zero_velocity_branch
        (Numerics.mk Real.sqrt Real.cos Real.sin Real.pi ((2 : ℝ) ^ (-1022 : ℤ)))
        ⟨1, 1, 1, 1⟩ ⟨1, 0, 0⟩ ⟨-1, 0, 0⟩ 1 1 (1/4) (1/2) (1/4) (1/2) (by positivity)).2.1
        (by simp [Vec3.add, Vec3.scale])).2).1⟩

end RealArithmetic

/-! ### Weight divisors of the fusion pairing -/

section Pairing

open NuclearFusionFunc

/-- Number of `j < b` with `j % r = v % r`, for `r > 0`. -/
theorem card_filter_mod_eq (b r v : ℕ) (hr : 0 < r) :
    ((Finset.range b).filter (fun j => j % r = v % r)).card =
      b / r + if v % r < b % r then 1 else 0 := by
  have h := Nat.count_modEq_card b hr v
  rw [Nat.count_eq_card_filter_range] at h
  exact h

/-- The divisor `c1k` counts the loop indices below `max_N` with the residue of `k` modulo
`NI1`. -/
theorem c1k_eq_card (NI1 NI2 k : ℕ) (h1 : 1 ≤ NI1) :
    c1k NI1 NI2 k =
      ((Finset.range (max_N NI1 NI2)).filter (fun j => j % NI1 = k % NI1)).card := by
  rw [card_filter_mod_eq _ _ _ h1]
  unfold c1k c1 max_N
  rcases le_total NI1 NI2 with h | h
  · rw [max_eq_right h, max_eq_left ((Nat.one_le_div_iff h1).mpr h)]
    split_ifs <;> rfl
  · have hq : NI2 / NI1 ≤ 1 := Nat.div_le_of_le_mul (by nlinarith)
    rw [max_eq_left h, max_eq_right hq, Nat.mod_self, Nat.div_self h1]
    simp

/-- The divisor `c2k` counts the loop indices below `max_N` with the residue of `k` modulo
`NI2`. -/
theorem c2k_eq_card (NI1 NI2 k : ℕ) (h2 : 1 ≤ NI2) :
    c2k NI1 NI2 k =
      ((Finset.range (max_N NI1 NI2)).filter (fun j => j % NI2 = k % NI2)).card := by
  rw [card_filter_mod_eq _ _ _ h2]
  unfold c2k c2 max_N
  rcases le_total NI1 NI2 with h | h
  · have hq : NI1 / NI2 ≤ 1 := Nat.div_le_of_le_mul (by nlinarith)
    rw [max_eq_right h, max_eq_right hq, Nat.mod_self, Nat.div_self h2]
    simp
  · rw [max_eq_left h, max_eq_left ((Nat.one_le_div_iff h2).mpr h)]
    split_ifs <;> rfl

/-- C2: for `NI1, NI2 ≥ 1`, `max_N = max(NI1, NI2)` and every `k`, the divisor `c1k` is the
number of loop indices `j` in `[0, max_N)` with `j mod NI1 = k mod NI1`, and `c2k` the number
of those with `j mod NI2 = k mod NI2`. -/
theorem NuclearFusionFunc_weight_divisors (NI1 NI2 k : ℕ) (h1 : 1 ≤ NI1) (h2 : 1 ≤ NI2) :
    c1k NI1 NI2 k =
      ((Finset.range (max_N NI1 NI2)).filter (fun j => j % NI1 = k % NI1)).card ∧
    c2k NI1 NI2 k =
      ((Finset.range (max_N NI1 NI2)).filter (fun j => j % NI2 = k % NI2)).card :=
  ⟨c1k_eq_card NI1 NI2 k h1, c2k_eq_card NI1 NI2 k h2⟩

/-- Witness of C2 for 2 particles of species 1 and 5 of species 2, at `k = 0`: the first
particle of species 1 is paired 3 times (`k = 0, 2, 4`), the first of species 2 once. -/
theorem NuclearFusionFunc_weight_divisors_witness :
    c1k 2 5 0 = 3 ∧ c2k 2 5 0 = 1 ∧
    c1k 2 5 0 = ((Finset.range (max_N 2 5)).filter (fun j => j % 2 = 0 % 2)).card :=
  ⟨by decide, by decide,
    (NuclearFusionFunc_weight_divisors 2 5 0 (by decide) (by decide)).1⟩

/-- Successor modulo `d`: wrap to `0` when the residue reaches `d - 1`. -/
theorem succ_mod_wrap (n d : ℕ) (hd : 0 < d) :
    (n + 1) % d = if n % d + 1 = d then 0 else n % d + 1 := by
  have hlt : n % d < d := Nat.mod_lt n hd
  have h1 : (n + 1) % d = (n % d + 1) % d := by
    conv_lhs => rw [← Nat.mod_add_div n d]
    rw [show n % d + d * (n / d) + 1 = (n % d + 1) + d * (n / d) by ring,
      Nat.add_mul_mod_self_left]
  rw [h1]
  split_ifs with h
  · rw [h, Nat.mod_self]
  · exact Nat.mod_eq_of_lt (by omega)

/-- The update `++i; if (i == e) i = s;` keeps `i = s + n % (e - s)` along the loop. -/
theorem index_wrap (s e n : ℕ) (h : s < e) :
    (if s + n % (e - s) + 1 = e then s else s + n % (e - s) + 1) = s + (n + 1) % (e - s) := by
  rw [succ_mod_wrap n (e - s) (by omega)]
  have hlt : n % (e - s) < e - s := Nat.mod_lt n (by omega)
  by_cases hc : n % (e - s) + 1 = e - s
  · rw [if_pos hc, if_pos (by omega)]; rfl
  · rw [if_neg hc, if_neg (by omega)]; rfl

/-- State of the pairing loop after `n` iterations. -/
theorem foldl_loopBody (I1s I1e I2s I2e start : ℕ) (h1 : I1s < I1e) (h2 : I2s < I2e) (n : ℕ) :
    (List.range n).foldl (loopBody I1s I1e I2s I2e) ⟨I1s, I2s, start, []⟩ =
      ⟨I1s + n % (I1e - I1s), I2s + n % (I2e - I2s), start + n,
        (List.range n).map (fun k =>
          ⟨k, I1s + k % (I1e - I1s), I2s + k % (I2e - I2s), start + k,
            c1k (I1e - I1s) (I2e - I2s) k, c2k (I1e - I1s) (I2e - I2s) k⟩)⟩ := by
  induction n with
  | zero => simp
  | succ n ih =>
    rw [List.range_succ, List.foldl_append, ih]
    simp only [List.foldl_cons, List.foldl_nil, loopBody, List.map_append, List.map_cons,
      List.map_nil, index_wrap I1s I1e n h1, index_wrap I2s I2e n h2]
    rfl

/-- The pairings of `NuclearFusionFunc::operator()`: iteration `k` pairs the entries
`I1s + k % NI1` and `I2s + k % NI2` of the index arrays in slot `cell_start_pair + k`. -/
theorem pairings_eq (I1s I1e I2s I2e start : ℕ) (h1 : I1s < I1e) (h2 : I2s < I2e) :
    pairings I1s I1e I2s I2e start =
      (List.range (max_N (I1e - I1s) (I2e - I2s))).map (fun k =>
          ⟨k, I1s + k % (I1e - I1s), I2s + k % (I2e - I2s), start + k,
            c1k (I1e - I1s) (I2e - I2s) k, c2k (I1e - I1s) (I2e - I2s) k⟩) := by
  unfold pairings
  rw [foldl_loopBody I1s I1e I2s I2e start h1 h2]

/-- Length of a filtered `List.range` as the cardinality of the filtered `Finset.range`. -/
theorem length_filter_range (n : ℕ) (p : ℕ → Prop) [DecidablePred p] :
    ((List.range n).filter (fun j => decide (p j))).length =
      ((Finset.range n).filter p).card := by
  simp only [Finset.card, Finset.filter_val, Finset.range_val, Multiset.range,
    Multiset.filter_coe, Multiset.coe_card]

/-- In the loop of `NuclearFusionFunc::operator()`, the weight of each particle is divided by
the number of pairings it takes part in: for every pairing `r` made by the loop, `r.c1k` is the
number of pairings with the same species-1 entry `i1` and `r.c2k` the number of pairings with
the same species-2 entry `i2`. -/
theorem pairings_divisor_eq_times_paired (I1s I1e I2s I2e start : ℕ)
    (h1 : I1s < I1e) (h2 : I2s < I2e) (r : Pairing)
    (hr : r ∈ pairings I1s I1e I2s I2e start) :
    r.c1k = ((pairings I1s I1e I2s I2e start).filter (fun r2 => decide (r2.i1 = r.i1))).length ∧
    r.c2k = ((pairings I1s I1e I2s I2e start).filter (fun r2 => decide (r2.i2 = r.i2))).length := by
  rw [pairings_eq I1s I1e I2s I2e start h1 h2] at hr ⊢
  obtain ⟨k, -, rfl⟩ := List.mem_map.mp hr
  simp only [List.filter_map, List.length_map, Function.comp_def, add_right_inj]
  rw [length_filter_range, length_filter_range]
  exact ⟨c1k_eq_card _ _ k (by omega), c2k_eq_card _ _ k (by omega)⟩

end Pairing

/-! ### Kinetic energy -/

section KineticEnergyProperties

open Filter Topology

/-- Near `0`, the derivative of `y ↦ a * (1 + y)^p` is `y ↦ (a * p) * (1 + y)^(p - 1)`. -/
theorem deriv_const_mul_one_add_rpow (a p : ℝ) :
    deriv (fun y : ℝ => a * (1 + y) ^ p) =ᶠ[𝓝 0] fun y => (a * p) * (1 + y) ^ (p - 1) := by
  have hmem : Set.Ioi (-1 : ℝ) ∈ 𝓝 (0 : ℝ) := Ioi_mem_nhds (by norm_num)
  filter_upwards [hmem] with y hy
  have hlt : (-1 : ℝ) < y := hy
  have hne : (1 : ℝ) + y ≠ 0 := by linarith
  have h1 : HasDerivAt (fun y : ℝ => 1 + y) 1 y := by
    simpa using (hasDerivAt_id y).const_add 1
  have h2 : HasDerivAt (fun y : ℝ => (1 + y) ^ p) (1 * p * (1 + y) ^ (p - 1)) y :=
    h1.rpow_const (Or.inl hne)
  rw [(h2.const_mul a).deriv]
  ring

/-- One more derivative of a function whose `k`-th derivative is `a * (1 + y)^p` near `0`. -/
theorem iteratedDeriv_succ_one_add_rpow (f : ℝ → ℝ) (k : ℕ) (a p : ℝ)
    (h : iteratedDeriv k f =ᶠ[𝓝 0] fun y => a * (1 + y) ^ p) :
    iteratedDeriv (k + 1) f =ᶠ[𝓝 0] fun y => (a * p) * (1 + y) ^ (p - 1) := by
  rw [iteratedDeriv_succ]
  exact h.deriv.trans (deriv_const_mul_one_add_rpow a p)

/-- First derivative of `y ↦ sqrt (1 + y) - 1` near `0`. -/
theorem iteratedDeriv_one_sqrt_one_add :
    iteratedDeriv 1 (fun y : ℝ => Real.sqrt (1 + y) - 1) =ᶠ[𝓝 0]
      fun y => (1 / 2 : ℝ) * (1 + y) ^ (-(1 / 2) : ℝ) := by
  have hf : (fun y : ℝ => Real.sqrt (1 + y) - 1) = fun y => 1 * (1 + y) ^ (1 / 2 : ℝ) - 1 := by
    funext y
    rw [Real.sqrt_eq_rpow, one_mul]
  have hd : deriv (fun y : ℝ => 1 * (1 + y) ^ (1 / 2 : ℝ) - 1) =
      deriv (fun y : ℝ => 1 * (1 + y) ^ (1 / 2 : ℝ)) := by
    funext y
    exact deriv_sub_const (1 : ℝ)
  rw [iteratedDeriv_one, hf, hd]
  refine (deriv_const_mul_one_add_rpow 1 (1 / 2)).trans (Eventually.of_forall fun y => ?_)
  norm_num

/-- The derivatives of order `0` to `5` of `y ↦ sqrt (1 + y) - 1` at `0`. -/
theorem iteratedDeriv_sqrt_one_add_at_zero :
    iteratedDeriv 0 (fun y : ℝ => Real.sqrt (1 + y) - 1) 0 = 0 ∧
    iteratedDeriv 1 (fun y : ℝ => Real.sqrt (1 + y) - 1) 0 = 1 / 2 ∧
    iteratedDeriv 2 (fun y : ℝ => Real.sqrt (1 + y) - 1) 0 = -(1 / 4) ∧
    iteratedDeriv 3 (fun y : ℝ => Real.sqrt (1 + y) - 1) 0 = 3 / 8 ∧
    iteratedDeriv 4 (fun y : ℝ => Real.sqrt (1 + y) - 1) 0 = -(15 / 16) ∧
    iteratedDeriv 5 (fun y : ℝ => Real.sqrt (1 + y) - 1) 0 = 105 / 32 := by
  have e1 := iteratedDeriv_one_sqrt_one_add
  have e2 := iteratedDeriv_succ_one_add_rpow _ 1 _ _ e1
  have e3 := iteratedDeriv_succ_one_add_rpow _ 2 _ _ e2
  have e4 := iteratedDeriv_succ_one_add_rpow _ 3 _ _ e3
  have e5 := iteratedDeriv_succ_one_add_rpow _ 4 _ _ e4
  refine ⟨by simp [iteratedDeriv_zero], ?_, ?_, ?_, ?_, ?_⟩
  · rw [e1.eq_of_nhds]; norm_num
  · rw [e2.eq_of_nhds]; norm_num
  · rw [e3.eq_of_nhds]; norm_num
  · rw [e4.eq_of_nhds]; norm_num
  · rw [e5.eq_of_nhds]; norm_num

/-- The polynomial of the low-energy branch is the Taylor polynomial of degree 5 of
`y ↦ sqrt (1 + y) - 1` at `0`. -/
theorem taylorBranch_eq_taylor (x : ℝ) :
    Algorithms.taylorBranch x =
      ∑ k in Finset.range 6,
        iteratedDeriv k (fun y : ℝ => Real.sqrt (1 + y) - 1) 0 / (k.factorial : ℝ) * x ^ k := by
  obtain ⟨h0, h1, h2, h3, h4, h5⟩ := iteratedDeriv_sqrt_one_add_at_zero
  simp only [Finset.sum_range_succ, Finset.sum_range_zero, h0, h1, h2, h3, h4, h5,
    Nat.factorial, Algorithms.taylorBranch]
  norm_num
  ring

/-- C5: with `u2 = (ux^2+uy^2+uz^2)/c^2` and `gamma = sqrt(1+u2)`, `KineticEnergy` returns
`(gamma - 1)*mass*c^2` when `gamma > 1.005` and `mass*c^2*P(u2)` when `gamma ≤ 1.005`, where
`P(x) = x/2 - x^2/8 + x^3/16 - 5x^4/128 + 7x^5/256` is the Taylor polynomial of degree 5 of
`sqrt(1+x) - 1` about `x = 0` (its coefficient of `x^k` is the `k`-th derivative at `0`
divided by `k!`). -/
theorem KineticEnergy_branches (tiny : ℝ) (P : PhysConst ℝ) (ux uy uz mass : ℝ) :
    (Real.sqrt (1 + (ux ^ 2 + uy ^ 2 + uz ^ 2) / P.c ^ 2) > 1.005 →
      Algorithms.KineticEnergy (Numerics.mk Real.sqrt Real.cos Real.sin Real.pi tiny) P
          ux uy uz mass =
        (Real.sqrt (1 + (ux ^ 2 + uy ^ 2 + uz ^ 2) / P.c ^ 2) - 1) * mass * P.c ^ 2) ∧
    (Real.sqrt (1 + (ux ^ 2 + uy ^ 2 + uz ^ 2) / P.c ^ 2) ≤ 1.005 →
      Algorithms.KineticEnergy (Numerics.mk Real.sqrt Real.cos Real.sin Real.pi tiny) P
          ux uy uz mass =
        mass * P.c ^ 2 * Algorithms.taylorBranch ((ux ^ 2 + uy ^ 2 + uz ^ 2) / P.c ^ 2)) ∧
    (∀ x : ℝ, Algorithms.taylorBranch x =
      x / 2 - x ^ 2 / 8 + x ^ 3 / 16 - 5 * x ^ 4 / 128 + 7 * x ^ 5 / 256) ∧
    (∀ x : ℝ, Algorithms.taylorBranch x =
      ∑ k in Finset.range 6,
        iteratedDeriv k (fun y : ℝ => Real.sqrt (1 + y) - 1) 0 / (k.factorial : ℝ) * x ^ k) := by
  have hu : (ux * ux + uy * uy + uz * uz) * (1 / (P.c * P.c)) =
      (ux ^ 2 + uy ^ 2 + uz ^ 2) / P.c ^ 2 := by ring
  refine ⟨fun h => ?_, fun h => ?_, fun _ => rfl, taylorBranch_eq_taylor⟩
  · simp only [Algorithms.KineticEnergy, Algorithms.gamma_relativistic_threshold, hu]
    rw [if_pos h]
    ring
  · simp only [Algorithms.KineticEnergy, Algorithms.gamma_relativistic_threshold, hu]
    rw [if_neg (not_lt.mpr h)]
    simp only [Algorithms.taylorBranch]
    ring

/-- Witness of C5 on both sides of the threshold, with `c = 1` and `mass = 2`: the particle at
rest (`gamma = 1`) has kinetic energy `0` by the Taylor branch, the particle with
`u = (2, 2, 0)` (`gamma = 3`) has kinetic energy `(3 - 1)*2` by the relativistic branch. -/
theorem KineticEnergy_branches_witness :
    Algorithms.KineticEnergy (Numerics.mk Real.sqrt Real.cos Real.sin Real.pi 0) ⟨1, 1, 1, 1⟩
        0 0 0 2 = 0 ∧
    Algorithms.KineticEnergy (Numerics.mk Real.sqrt Real.cos Real.sin Real.pi 0) ⟨1, 1, 1, 1⟩
        2 2 0 2 = 4 := by
  have hs1 : Real.sqrt (1 + ((0 : ℝ) ^ 2 + 0 ^ 2 + 0 ^ 2) / (1 : ℝ) ^ 2) = 1 := by norm_num
  have hs3 : Real.sqrt (1 + ((2 : ℝ) ^ 2 + 2 ^ 2 + 0 ^ 2) / (1 : ℝ) ^ 2) = 3 := by
    rw [show (1 + ((2 : ℝ) ^ 2 + 2 ^ 2 + 0 ^ 2) / (1 : ℝ) ^ 2) = 3 ^ 2 by norm_num]
    exact Real.sqrt_sq (by norm_num)
  constructor
  · rw [(KineticEnergy_branches 0 ⟨1, 1, 1, 1⟩ 0 0 0 2).2.1 (by rw [hs1]; norm_num)]
    simp [Algorithms.taylorBranch]
  · rw [(KineticEnergy_branches 0 ⟨1, 1, 1, 1⟩ 2 2 0 2).1 (by rw [hs3]; norm_num), hs3]
    norm_num

end KineticEnergyProperties

/-! ### Guard-cell sums -/

section GuardCells

/-- C6: the one-array `WarpXSumGuardCells` makes the single call
`SumBoundary(mf, icomp, ncomp, src_ngrow, n, period)`, where the destination guard width `n` is
the zero vector whenever `maxwell_solver_id` is not `PSATD` (only valid cells are updated) and
`mf.nGrowVect()` when it is `PSATD` (valid and guard cells are updated). -/
theorem WarpXSumGuardCells_updated_guards {Cell IV Per K : Type} [Zero IV]
    (SumBoundary : MultiFab Cell IV K → Int → Int → IV → IV → Per → MultiFab Cell IV K)
    (maxwell_solver_id PSATD : Int) (mf : MultiFab Cell IV K) (period : Per) (src_ngrow : IV)
    (icomp ncomp : Int) :
    (maxwell_solver_id ≠ PSATD →
      WarpXSumGuardCells SumBoundary maxwell_solver_id PSATD mf period src_ngrow icomp ncomp =
        SumBoundary mf icomp ncomp src_ngrow 0 period) ∧
    (maxwell_solver_id = PSATD →
      WarpXSumGuardCells SumBoundary maxwell_solver_id PSATD mf period src_ngrow icomp ncomp =
        SumBoundary mf icomp ncomp src_ngrow mf.nGrowVect period) := by
  constructor
  · intro h
    simp only [WarpXSumGuardCells, if_neg h]
  · intro h
    simp only [WarpXSumGuardCells, if_pos h]

/-- Witness of C6 with a `SumBoundary` that records the guard width it is called with in
`nGrowVect`: solver id `0` with `PSATD = 2` gives width `0`, solver id `2` the width `3` of
`mf`. -/
theorem WarpXSumGuardCells_updated_guards_witness :
    (WarpXSumGuardCells
        (fun (mf : MultiFab Unit Int Int) _ _ _ n (_ : Unit) => { mf with nGrowVect := n })
        0 2 ⟨fun _ _ => 0, 3⟩ () 1 0 1).nGrowVect = 0 ∧
    (WarpXSumGuardCells
        (fun (mf : MultiFab Unit Int Int) _ _ _ n (_ : Unit) => { mf with nGrowVect := n })
        2 2 ⟨fun _ _ => 0, 3⟩ () 1 0 1).nGrowVect = 3 :=
  ⟨by rw [(WarpXSumGuardCells_updated_guards _ 0 2 _ () 1 0 1).1 (by decide)],
    by rw [(WarpXSumGuardCells_updated_guards _ 2 2 _ () 1 0 1).2 rfl]⟩

/-- C7: the two-array `WarpXSumGuardCells(dst, src, ...)` is `setVal(0, icomp, ncomp, n)`
followed by `ParallelAdd(src, 0, icomp, ncomp, src_ngrow, n, period)`, with `n` the zero vector
unless the solver is `PSATD` and `dst.nGrowVect()` if it is.  In the updated region (valid
cells grown by `n`) component `icomp + j` of the result, `0 ≤ j < ncomp`, is the overlap sum of
component `0 + j` of `src` (the source components start at `0`), so it does not depend on the
previous contents of `dst`; every component outside `[icomp, icomp+ncomp)` is unchanged, and
so is the guard width. -/
theorem WarpXSumGuardCellsDstSrc_effect {CellD CellS IV Per K : Type} [Zero IV] [AddMonoid K]
    (G : MeshGeometry CellD CellS IV Per K) (maxwell_solver_id PSATD : Int)
    (dst : MultiFab CellD IV K) (src : MultiFab CellS IV K) (period : Per) (src_ngrow : IV)
    (icomp ncomp : Int) :
    WarpXSumGuardCellsDstSrc G maxwell_solver_id PSATD dst src period src_ngrow icomp ncomp =
      MultiFab.ParallelAdd G
        (MultiFab.setVal G dst 0 icomp ncomp
          (if maxwell_solver_id = PSATD then dst.nGrowVect else 0))
        src 0 icomp ncomp src_ngrow
        (if maxwell_solver_id = PSATD then dst.nGrowVect else 0) period ∧
    (∀ (cell : CellD) (j : Int),
      G.grown (if maxwell_solver_id = PSATD then dst.nGrowVect else 0) cell = true →
      0 ≤ j → j < ncomp →
      (WarpXSumGuardCellsDstSrc G maxwell_solver_id PSATD dst src period src_ngrow
          icomp ncomp).data cell (icomp + j) =
        G.overlap (fun c => src.data c j) src_ngrow period cell) ∧
    (∀ (dst2 : MultiFab CellD IV K) (cell : CellD) (n : Int),
      dst2.nGrowVect = dst.nGrowVect →
      G.grown (if maxwell_solver_id = PSATD then dst.nGrowVect else 0) cell = true →
      icomp ≤ n → n < icomp + ncomp →
      (WarpXSumGuardCellsDstSrc G maxwell_solver_id PSATD dst2 src period src_ngrow
          icomp ncomp).data cell n =
        (WarpXSumGuardCellsDstSrc G maxwell_solver_id PSATD dst src period src_ngrow
          icomp ncomp).data cell n) ∧
    (∀ (cell : CellD) (n : Int), ¬ (icomp ≤ n ∧ n < icomp + ncomp) →
      (WarpXSumGuardCellsDstSrc G maxwell_solver_id PSATD dst src period src_ngrow
          icomp ncomp).data cell n = dst.data cell n) ∧
    (WarpXSumGuardCellsDstSrc G maxwell_solver_id PSATD dst src period src_ngrow
        icomp ncomp).nGrowVect = dst.nGrowVect := by
  have key : ∀ (d : MultiFab CellD IV K) (cell : CellD) (n : Int),
      G.grown (if maxwell_solver_id = PSATD then d.nGrowVect else 0) cell = true →
      icomp ≤ n → n < icomp + ncomp →
      (WarpXSumGuardCellsDstSrc G maxwell_solver_id PSATD d src period src_ngrow
          icomp ncomp).data cell n =
        G.overlap (fun c => src.data c (n - icomp)) src_ngrow period cell := by
    intro d cell n hg h1 h2
    simp only [WarpXSumGuardCellsDstSrc, MultiFab.ParallelAdd, MultiFab.setVal]
    rw [if_pos ⟨hg, h1, h2⟩, if_pos ⟨hg, h1, h2⟩, zero_add, zero_add]
  refine ⟨rfl, ?_, ?_, ?_, rfl⟩
  · intro cell j hg h0 h1
    rw [key dst cell (icomp + j) hg (by linarith) (by linarith)]
    simp
  · intro dst2 cell n hn hg h1 h2
    rw [key dst cell n hg h1 h2, key dst2 cell n (by rw [hn]; exact hg) h1 h2]
  · intro cell n hn
    simp only [WarpXSumGuardCellsDstSrc, MultiFab.ParallelAdd, MultiFab.setVal]
    rw [if_neg (fun h => hn h.2), if_neg (fun h => hn h.2)]

/-- Witness of C7 on a one-cell mesh with integer values, `icomp = 1`, `ncomp = 2`, solver not
`PSATD`: with an overlap that returns the source value, components 1 and 2 of the result are
components 0 and 1 of `src`, and component 0 keeps the value of `dst`. -/
theorem WarpXSumGuardCellsDstSrc_effect_witness :
    (WarpXSumGuardCellsDstSrc
        (MeshGeometry.mk (fun (_ : Int) (_ : Unit) => true)
          (fun (f : Unit → Int) (_ : Int) (_ : Unit) (c : Unit) => f c))
        0 2 ⟨fun _ n => 100 + n, 3⟩ ⟨fun _ n => 10 + n, 3⟩ () 1 1 2).data () (1 + 1) = 10 + 1 ∧
    (WarpXSumGuardCellsDstSrc
        (MeshGeometry.mk (fun (_ : Int) (_ : Unit) => true)
          (fun (f : Unit → Int) (_ : Int) (_ : Unit) (c : Unit) => f c))
        0 2 ⟨fun _ n => 100 + n, 3⟩ ⟨fun _ n => 10 + n, 3⟩ () 1 1 2).data () 0 = 100 + 0 :=
  ⟨(WarpXSumGuardCellsDstSrc_effect
      (MeshGeometry.mk (fun (_ : Int) (_ : Unit) => true)
        (fun (f : Unit → Int) (_ : Int) (_ : Unit) (c : Unit) => f c))
      0 2 ⟨fun _ n => 100 + n, 3⟩ ⟨fun _ n => 10 + n, 3⟩ () 1 1 2).2.1 () 1 rfl
      (by decide) (by decide),
    (WarpXSumGuardCellsDstSrc_effect
      (MeshGeometry.mk (fun (_ : Int) (_ : Unit) => true)
        (fun (f : Unit → Int) (_ : Int) (_ : Unit) (c : Unit) => f c))
      0 2 ⟨fun _ n => 100 + n, 3⟩ ⟨fun _ n => 10 + n, 3⟩ () 1 1 2).2.2.2.1 () 0 (by decide)⟩

end GuardCells

/-! ### Particle push -/

section ParticlePush

variable {K : Type} [LinearOrderedField K]

/-- The four calls that every non-aborting branch of `doParticlePush` makes after choosing the
kernel: momentum update, `GetPosition`, `UpdatePosition`, `SetPosition`. -/
theorem push_sequence_eq (F : Numerics K) (P : PhysConst K) (Kn : PushKernels K)
    (s : PushState K) (kernel : MomentumKernel) (i : Int) (E B : Vec3 K) (qp m dt : K) :
    (((s.UpdateMomentum F P Kn kernel E B qp m dt).GetPosition i).2.UpdatePosition Kn
        ((s.UpdateMomentum F P Kn kernel E B qp m dt).GetPosition i).1 dt).2.SetPosition i
      (((s.UpdateMomentum F P Kn kernel E B qp m dt).GetPosition i).2.UpdatePosition Kn
        ((s.UpdateMomentum F P Kn kernel E B qp m dt).GetPosition i).1 dt).1 =
    s.pushed F P Kn kernel i E B qp m dt := by
  simp [PushState.UpdateMomentum, PushState.GetPosition, PushState.UpdatePosition,
    PushState.SetPosition, PushState.pushed]

/-- With `do_crr = 0` and a known `pusher_algo`, `doParticlePush` is one push with the kernel
of that algorithm and the charge `q*ion_lev` (`q` when `ion_lev = 0`). -/
theorem doParticlePush_selected (F : Numerics K) (P : PhysConst K) (Kn : PushKernels K)
    (A : ParticlePusherAlgo) (qed : Bool) (s : PushState K) (i : Int) (E B : Vec3 K)
    (ion_lev : Int) (m q : K) (pusher_algo do_crr do_copy do_sync : Int) (t_chi_max dt : K)
    (hcrr : do_crr = 0)
    (hsel : pusher_algo = A.Boris ∨ pusher_algo = A.Vay ∨ pusher_algo = A.HigueraCary) :
    doParticlePush F P Kn A qed s i E B ion_lev m q pusher_algo do_crr do_copy do_sync
        t_chi_max dt =
      Except.ok (PushState.pushed F P Kn (if do_copy ≠ 0 then s.copyAttribs i else s)
        (if pusher_algo = A.Boris then MomentumKernel.Boris
          else if pusher_algo = A.Vay then MomentumKernel.Vay
          else MomentumKernel.HigueraCary)
        i E B (if ion_lev = 0 then q else q * (ion_lev : K)) m dt) := by
  have hq : (if ion_lev ≠ 0 then q * (ion_lev : K) else q) =
      (if ion_lev = 0 then q else q * (ion_lev : K)) := by
    split_ifs <;> first | rfl | contradiction
  simp only [doParticlePush, hq, hcrr, ne_eq, not_true_eq_false, if_false]
  by_cases hB : pusher_algo = A.Boris
  · simp only [if_pos hB, ← push_sequence_eq]
  · by_cases hV : pusher_algo = A.Vay
    · simp only [if_neg hB, if_pos hV, ← push_sequence_eq]
    · have hH : pusher_algo = A.HigueraCary := by
        rcases hsel with h | h | h
        · exact absurd h hB
        · exact absurd h hV
        · exact h
      simp only [if_neg hB, if_neg hV, if_pos hH, ← push_sequence_eq]

/-- With `do_crr ≠ 0`, `doParticlePush` is one push with the Boris kernel, with or without
radiation reaction. -/
theorem doParticlePush_crr (F : Numerics K) (P : PhysConst K) (Kn : PushKernels K)
    (A : ParticlePusherAlgo) (qed : Bool) (s : PushState K) (i : Int) (E B : Vec3 K)
    (ion_lev : Int) (m q : K) (pusher_algo do_crr do_copy do_sync : Int) (t_chi_max dt : K)
    (hcrr : do_crr ≠ 0) :
    ∃ (kernel : MomentumKernel) (qp : K),
      doParticlePush F P Kn A qed s i E B ion_lev m q pusher_algo do_crr do_copy do_sync
          t_chi_max dt =
        Except.ok (PushState.pushed F P Kn (if do_copy ≠ 0 then s.copyAttribs i else s)
          kernel i E B qp m dt) := by
  simp only [doParticlePush, ne_eq, hcrr, not_false_eq_true, if_true]
  generalize (if ¬do_copy = 0 then s.copyAttribs i else s) = s0
  cases qed
  · exact ⟨MomentumKernel.BorisWithRadiationReaction,
      if ¬ion_lev = 0 then q * (ion_lev : K) else q, by
        simp only [Bool.false_eq_true, if_false, ← push_sequence_eq]⟩
  · by_cases hs : do_sync = 0
    · exact ⟨MomentumKernel.BorisWithRadiationReaction, q, by
        simp only [if_true, hs, not_true_eq_false, if_false, ← push_sequence_eq]⟩
    · by_cases hchi : Kn.chi_ele_pos ⟨m * s0.u.x, m * s0.u.y, m * s0.u.z⟩ E B < t_chi_max
      · exact ⟨MomentumKernel.BorisWithRadiationReaction, q, by
          simp only [if_true, hs, not_false_eq_true, if_pos hchi, ← push_sequence_eq]⟩
      · exact ⟨MomentumKernel.Boris, q, by
          simp only [if_true, hs, not_false_eq_true, if_neg hchi, ← push_sequence_eq]⟩

/-- The optional `copyAttribs(i)` at the start of `doParticlePush` changes neither the momentum
nor the positions, and adds no momentum or position update to the trace. -/
theorem copyAttribs_frame {T : Type} (s : PushState T) (i do_copy : Int) (p : PushEvent T → Bool)
    (hp : p (PushEvent.copyAttribs i) = false) :
    (if do_copy ≠ 0 then s.copyAttribs i else s).u = s.u ∧
    (if do_copy ≠ 0 then s.copyAttribs i else s).pos = s.pos ∧
    (if do_copy ≠ 0 then s.copyAttribs i else s).trace.filter p = s.trace.filter p := by
  split_ifs
  · refine ⟨rfl, rfl, ?_⟩
    simp [PushState.copyAttribs, List.filter_append, hp]
  · exact ⟨rfl, rfl, rfl⟩

/-- C8: `doParticlePush` aborts with "Unknown particle pusher" if and only if `do_crr` is zero
and `pusher_algo` is none of Boris, Vay, HigueraCary.  In every other case it returns, and among
the calls it adds to the trace there is exactly one momentum update followed by exactly one
position update, the latter with the momentum that the former produced (which is also the
momentum on return).  When `do_crr` is non-zero the result is the same for every
`pusher_algo`. -/
theorem doParticlePush_abort_iff (F : Numerics K) (P : PhysConst K) (Kn : PushKernels K)
    (A : ParticlePusherAlgo) (qed : Bool) (s : PushState K) (i : Int) (E B : Vec3 K)
    (ion_lev : Int) (m q : K) (pusher_algo do_crr do_copy do_sync : Int) (t_chi_max dt : K) :
    (doParticlePush F P Kn A qed s i E B ion_lev m q pusher_algo do_crr do_copy do_sync
          t_chi_max dt = Except.error "Unknown particle pusher" ↔
      (do_crr = 0 ∧ pusher_algo ≠ A.Boris ∧ pusher_algo ≠ A.Vay ∧
        pusher_algo ≠ A.HigueraCary)) ∧
    (¬ (do_crr = 0 ∧ pusher_algo ≠ A.Boris ∧ pusher_algo ≠ A.Vay ∧
          pusher_algo ≠ A.HigueraCary) →
      ∃ (s' : PushState K) (kernel : MomentumKernel) (qp : K),
        doParticlePush F P Kn A qed s i E B ion_lev m q pusher_algo do_crr do_copy do_sync
          t_chi_max dt = Except.ok s' ∧
        s'.trace.filter (fun e => e.isMomentumUpdate || e.isPositionUpdate) =
          s.trace.filter (fun e => e.isMomentumUpdate || e.isPositionUpdate) ++
            [PushEvent.UpdateMomentum kernel s.u E B qp m dt,
             PushEvent.UpdatePosition (s.pos i) (kernel.run F P Kn s.u E B qp m dt) dt] ∧
        s'.u = kernel.run F P Kn s.u E B qp m dt ∧
        s'.pos i = Kn.UpdatePosition (s.pos i) s'.u dt) ∧
    (do_crr ≠ 0 → ∀ pusher_algo2 : Int,
      doParticlePush F P Kn A qed s i E B ion_lev m q pusher_algo2 do_crr do_copy do_sync
          t_chi_max dt =
        doParticlePush F P Kn A qed s i E B ion_lev m q pusher_algo do_crr do_copy do_sync
          t_chi_max dt) := by
  have hok : ¬ (do_crr = 0 ∧ pusher_algo ≠ A.Boris ∧ pusher_algo ≠ A.Vay ∧
      pusher_algo ≠ A.HigueraCary) →
      ∃ (kernel : MomentumKernel) (qp : K),
        doParticlePush F P Kn A qed s i E B ion_lev m q pusher_algo do_crr do_copy do_sync
            t_chi_max dt =
          Except.ok (PushState.pushed F P Kn (if do_copy ≠ 0 then s.copyAttribs i else s)
            kernel i E B qp m dt) := by
    intro h
    by_cases hcrr : do_crr = 0
    · have hsel : pusher_algo = A.Boris ∨ pusher_algo = A.Vay ∨
          pusher_algo = A.HigueraCary := by
        by_contra hcon
        push_neg at hcon
        exact h ⟨hcrr, hcon⟩
      exact ⟨_, _, doParticlePush_selected F P Kn A qed s i E B ion_lev m q pusher_algo do_crr
        do_copy do_sync t_chi_max dt hcrr hsel⟩
    · exact doParticlePush_crr F P Kn A qed s i E B ion_lev m q pusher_algo do_crr
        do_copy do_sync t_chi_max dt hcrr
  refine ⟨⟨?_, ?_⟩, ?_, ?_⟩
  · intro herr
    by_contra hcon
    obtain ⟨kernel, qp, hk⟩ := hok hcon
    rw [hk] at herr
    exact absurd herr (by simp)
  · rintro ⟨hcrr, hB, hV, hH⟩
    simp only [doParticlePush, hcrr, ne_eq, not_true_eq_false, if_false, hB, hV, hH]
  · intro h
    obtain ⟨kernel, qp, hk⟩ := hok h
    obtain ⟨hu, hpos, htr⟩ := copyAttribs_frame s i do_copy
      (fun e => e.isMomentumUpdate || e.isPositionUpdate) rfl
    refine ⟨_, kernel, qp, hk, ?_, ?_, ?_⟩
    · simp only [PushState.pushed, List.filter_append, htr, hu, hpos]
      simp [List.filter, PushEvent.isMomentumUpdate, PushEvent.isPositionUpdate]
    · simp only [PushState.pushed, hu]
    · simp only [PushState.pushed, hu, hpos, if_true]
  · intro hcrr pusher_algo2
    simp only [doParticlePush, ne_eq, hcrr, not_false_eq_true, if_true]

/-- C9: with `do_crr = 0` and `pusher_algo` one of Boris, Vay, HigueraCary, `doParticlePush`
returns and makes exactly one momentum-kernel call, to the kernel of that algorithm, on the
incoming momentum, with the six field values, `m` and `dt` unchanged and with charge
`q*ion_lev` when `ion_lev` is non-zero and `q` when `ion_lev` is `0`. -/
theorem doParticlePush_charge (F : Numerics K) (P : PhysConst K) (Kn : PushKernels K)
    (A : ParticlePusherAlgo) (qed : Bool) (s : PushState K) (i : Int) (E B : Vec3 K)
    (ion_lev : Int) (m q : K) (pusher_algo do_crr do_copy do_sync : Int) (t_chi_max dt : K)
    (hcrr : do_crr = 0)
    (hsel : pusher_algo = A.Boris ∨ pusher_algo = A.Vay ∨ pusher_algo = A.HigueraCary) :
    ∃ s' : PushState K,
      doParticlePush F P Kn A qed s i E B ion_lev m q pusher_algo do_crr do_copy do_sync
        t_chi_max dt = Except.ok s' ∧
      s'.trace.filter PushEvent.isMomentumUpdate =
        s.trace.filter PushEvent.isMomentumUpdate ++
          [PushEvent.UpdateMomentum
            (if pusher_algo = A.Boris then MomentumKernel.Boris
              else if pusher_algo = A.Vay then MomentumKernel.Vay
              else MomentumKernel.HigueraCary)
            s.u E B (if ion_lev = 0 then q else q * (ion_lev : K)) m dt] := by
  obtain ⟨hu, hpos, htr⟩ := copyAttribs_frame s i do_copy PushEvent.isMomentumUpdate rfl
  refine ⟨_, doParticlePush_selected F P Kn A qed s i E B ion_lev m q pusher_algo do_crr
    do_copy do_sync t_chi_max dt hcrr hsel, ?_⟩
  simp only [PushState.pushed, List.filter_append, htr, hu, hpos]
  simp [List.filter, PushEvent.isMomentumUpdate]

/-- Witness of C8 over `ℚ`, with enumerators `Boris = 0`, `Vay = 1`, `HigueraCary = 2`: the call
with `pusher_algo = 5` and `do_crr = 0` aborts. -/
theorem doParticlePush_abort_iff_witness :
    doParticlePush (Numerics.mk id id id 3 0 : Numerics ℚ) ⟨1, 1, 1, 1⟩
        ⟨fun u _ _ _ _ _ => u, fun u _ _ _ _ _ => u, fun u _ _ _ _ _ => u, fun x _ _ => x,
          fun _ _ _ => 0⟩
        ⟨0, 1, 2⟩ false ⟨⟨0, 0, 0⟩, fun _ => ⟨0, 0, 0⟩, []⟩ 0 ⟨0, 0, 0⟩ ⟨0, 0, 0⟩ 0 1 1
        5 0 0 0 0 1 = Except.error "Unknown particle pusher" :=
  (doParticlePush_abort_iff (Numerics.mk id id id 3 0 : Numerics ℚ) ⟨1, 1, 1, 1⟩
      ⟨fun u _ _ _ _ _ => u, fun u _ _ _ _ _ => u, fun u _ _ _ _ _ => u, fun x _ _ => x,
        fun _ _ _ => 0⟩
      ⟨0, 1, 2⟩ false ⟨⟨0, 0, 0⟩, fun _ => ⟨0, 0, 0⟩, []⟩ 0 ⟨0, 0, 0⟩ ⟨0, 0, 0⟩ 0 1 1
      5 0 0 0 0 1).1.mpr ⟨rfl, by decide, by decide, by decide⟩

/-- Witness of C9 over `ℚ`: `pusher_algo = 1` (Vay), `do_crr = 0`, `ion_lev = 3`, `q = 2`; the
Vay kernel is called once, with charge `2 * 3`. -/
theorem doParticlePush_charge_witness :
    ∃ s' : PushState ℚ,
      doParticlePush (Numerics.mk id id id 3 0 : Numerics ℚ) ⟨1, 1, 1, 1⟩
        ⟨fun u _ _ _ _ _ => u, fun u _ _ _ _ _ => u, fun u _ _ _ _ _ => u, fun x _ _ => x,
          fun _ _ _ => 0⟩
        ⟨0, 1, 2⟩ false ⟨⟨4, 5, 6⟩, fun _ => ⟨0, 0, 0⟩, []⟩ 0 ⟨1, 0, 0⟩ ⟨0, 1, 0⟩ 3 1 2
        1 0 0 0 0 1 = Except.ok s' ∧
      s'.trace.filter PushEvent.isMomentumUpdate =
        [PushEvent.UpdateMomentum MomentumKernel.Vay ⟨4, 5, 6⟩ ⟨1, 0, 0⟩ ⟨0, 1, 0⟩ (2 * 3) 1 1] :=
  doParticlePush_charge (Numerics.mk id id id 3 0 : Numerics ℚ) ⟨1, 1, 1, 1⟩
    ⟨fun u _ _ _ _ _ => u, fun u _ _ _ _ _ => u, fun u _ _ _ _ _ => u, fun x _ _ => x,
      fun _ _ _ => 0⟩
    ⟨0, 1, 2⟩ false ⟨⟨4, 5, 6⟩, fun _ => ⟨0, 0, 0⟩, []⟩ 0 ⟨1, 0, 0⟩ ⟨0, 1, 0⟩ 3 1 2
    1 0 0 0 0 1 rfl (Or.inr (Or.inl rfl))

end ParticlePush

/-! ### Momentum of the fusion products in the centre-of-mass frame -/

section FusionProducts

/-- Inverting `E^2 = p^2*c^2 + m^2*c^4` for two bodies of masses `ma`, `mb` that share the energy
`E ≥ (ma + mb)*c^2`: the squared momentum given by the formula of
ProtonBoronFusionInitializeMomentum.H:139-141 is non-negative and the two energies add up
to `E`. -/
theorem com_momentum_inversion (c ma mb E : ℝ) (hc : 0 < c) (hma : 0 ≤ ma) (hmb : 0 ≤ mb)
    (hE0 : 0 < E) (hE : (ma + mb) * (c * c) ≤ E) :
    0 ≤ E * E * 0.25 * (1 / (c * c)) - (ma * ma + mb * mb) * (c * c) * 0.5 +
        c * c * (c * c) * (c * c) * 0.25 * ((ma * ma - mb * mb) * (ma * ma - mb * mb)) / (E * E) ∧
    Real.sqrt ((E * E * 0.25 * (1 / (c * c)) - (ma * ma + mb * mb) * (c * c) * 0.5 +
        c * c * (c * c) * (c * c) * 0.25 * ((ma * ma - mb * mb) * (ma * ma - mb * mb)) / (E * E))
          * c ^ 2 + ma ^ 2 * c ^ 4) +
      Real.sqrt ((E * E * 0.25 * (1 / (c * c)) - (ma * ma + mb * mb) * (c * c) * 0.5 +
        c * c * (c * c) * (c * c) * 0.25 * ((ma * ma - mb * mb) * (ma * ma - mb * mb)) / (E * E))
          * c ^ 2 + mb ^ 2 * c ^ 4) = E := by
  have hcne : c ≠ 0 := hc.ne.symm
  have hEne : E ≠ 0 := hE0.ne.symm
  have hc2 : 0 < c * c := mul_pos hc hc
  have hac : 0 ≤ ma * (c * c) := mul_nonneg hma hc2.le
  have hbc : 0 ≤ mb * (c * c) := mul_nonneg hmb hc2.le
  have hsum : ma * (c * c) + mb * (c * c) ≤ E := by linarith
  generalize hp : E * E * 0.25 * (1 / (c * c)) - (ma * ma + mb * mb) * (c * c) * 0.5 +
        c * c * (c * c) * (c * c) * 0.25 * ((ma * ma - mb * mb) * (ma * ma - mb * mb)) / (E * E)
      = p
  have hA : p * c ^ 2 + ma ^ 2 * c ^ 4 =
      ((E * E + (ma * ma - mb * mb) * c ^ 4) / (2 * E)) ^ 2 := by
    rw [← hp]; field_simp; ring
  have hB : p * c ^ 2 + mb ^ 2 * c ^ 4 =
      ((E * E - (ma * ma - mb * mb) * c ^ 4) / (2 * E)) ^ 2 := by
    rw [← hp]; field_simp; ring
  have hAge : ma * (c * c) ≤ (E * E + (ma * ma - mb * mb) * c ^ 4) / (2 * E) := by
    rw [le_div_iff₀ (by positivity)]
    nlinarith [mul_nonneg (sub_nonneg.mpr hsum)
      (add_nonneg (sub_nonneg.mpr (show ma * (c * c) ≤ E by linarith)) hbc)]
  have hBge : mb * (c * c) ≤ (E * E - (ma * ma - mb * mb) * c ^ 4) / (2 * E) := by
    rw [le_div_iff₀ (by positivity)]
    nlinarith [mul_nonneg (sub_nonneg.mpr hsum)
      (add_nonneg (sub_nonneg.mpr (show mb * (c * c) ≤ E by linarith)) hac)]
  have hA0 : 0 ≤ (E * E + (ma * ma - mb * mb) * c ^ 4) / (2 * E) := le_trans hac hAge
  have hB0 : 0 ≤ (E * E - (ma * ma - mb * mb) * c ^ 4) / (2 * E) := le_trans hbc hBge
  constructor
  · have hpc : 0 ≤ p * c ^ 2 := by
      have hsq : (ma * (c * c)) ^ 2 ≤ ((E * E + (ma * ma - mb * mb) * c ^ 4) / (2 * E)) ^ 2 :=
        pow_le_pow_left₀ hac hAge 2
      have h1 : (ma * (c * c)) ^ 2 = ma ^ 2 * c ^ 4 := by ring
      linarith
    exact nonneg_of_mul_nonneg_left hpc (by positivity)
  · rw [hA, hB, Real.sqrt_sq hA0, Real.sqrt_sq hB0]
    field_simp
    ring

/-- The assignment of `p_star_f_sq` (ProtonBoronFusionInitializeMomentum.H:139-141) in terms
of `E_star_f_sq`, `m_alpha = m_p * 3.97369` and `m_beryllium = m_p * 7.94748`. -/
theorem ProtonBoronFusion_p_star_f_sq {K : Type} [LinearOrderedField K] (F : Numerics K)
    (P : PhysConst K) (u1 u2 : Vec3 K) (m1 m2 r1 r2 r3 r4 : K) :
    (ProtonBoronFusionInitializeMomentum.locals F P u1 u2 m1 m2 r1 r2 r3 r4).p_star_f_sq =
      (ProtonBoronFusionInitializeMomentum.locals F P u1 u2 m1 m2 r1 r2 r3 r4).E_star_f_sq *
          0.25 * (1 / (P.c * P.c)) -
        (P.m_p * 3.97369 * (P.m_p * 3.97369) + P.m_p * 7.94748 * (P.m_p * 7.94748)) *
          (P.c * P.c) * 0.5 +
        P.c * P.c * (P.c * P.c) * (P.c * P.c) * 0.25 *
          ((P.m_p * 3.97369 * (P.m_p * 3.97369) - P.m_p * 7.94748 * (P.m_p * 7.94748)) *
            (P.m_p * 3.97369 * (P.m_p * 3.97369) - P.m_p * 7.94748 * (P.m_p * 7.94748))) /
          (ProtonBoronFusionInitializeMomentum.locals F P u1 u2 m1 m2 r1 r2 r3 r4).E_star_f_sq :=
  rfl

/-- The squared energy `E_star_f_sq` is a square, hence non-negative. -/
theorem ProtonBoronFusion_E_star_f_sq_nonneg {K : Type} [LinearOrderedField K] (F : Numerics K)
    (P : PhysConst K) (u1 u2 : Vec3 K) (m1 m2 r1 r2 r3 r4 : K) :
    0 ≤ (ProtonBoronFusionInitializeMomentum.locals F P u1 u2 m1 m2 r1 r2 r3 r4).E_star_f_sq := by
  simp only [ProtonBoronFusionInitializeMomentum.locals]
  exact mul_self_nonneg _

/-- C11: with `c > 0` and `m_p > 0`, for the total energy `E = sqrt(E_star_f_sq)` of the
alpha + beryllium pair, whenever `E ≥ (m_alpha + m_beryllium)*c^2` the value `p_star_f_sq`
computed by `ProtonBoronFusionInitializeMomentum` is non-negative and
`sqrt(p_star_f_sq*c^2 + m_alpha^2*c^4) + sqrt(p_star_f_sq*c^2 + m_beryllium^2*c^4) = E`, in
exact real arithmetic (`m_alpha = m_p*3.97369`, `m_beryllium = m_p*7.94748`). -/
theorem ProtonBoronFusion_com_momentum (F : Numerics ℝ) (P : PhysConst ℝ)
    (u1 u2 : Vec3 ℝ) (m1 m2 r1 r2 r3 r4 : ℝ) (hc : 0 < P.c) (hm : 0 < P.m_p)
    (hE : (P.m_p * 3.97369 + P.m_p * 7.94748) * P.c ^ 2 ≤
      Real.sqrt
        (ProtonBoronFusionInitializeMomentum.locals F P u1 u2 m1 m2 r1 r2 r3 r4).E_star_f_sq) :
    0 ≤ (ProtonBoronFusionInitializeMomentum.locals F P u1 u2 m1 m2 r1 r2 r3 r4).p_star_f_sq ∧
    Real.sqrt
        ((ProtonBoronFusionInitializeMomentum.locals F P u1 u2 m1 m2 r1 r2 r3 r4).p_star_f_sq *
            P.c ^ 2 + (P.m_p * 3.97369) ^ 2 * P.c ^ 4) +
      Real.sqrt
        ((ProtonBoronFusionInitializeMomentum.locals F P u1 u2 m1 m2 r1 r2 r3 r4).p_star_f_sq *
            P.c ^ 2 + (P.m_p * 7.94748) ^ 2 * P.c ^ 4) =
      Real.sqrt
        (ProtonBoronFusionInitializeMomentum.locals F P u1 u2 m1 m2 r1 r2 r3 r4).E_star_f_sq := by
  have h0 := ProtonBoronFusion_E_star_f_sq_nonneg F P u1 u2 m1 m2 r1 r2 r3 r4
  have hsq := Real.mul_self_sqrt h0
  have hrest : 0 < (P.m_p * 3.97369 + P.m_p * 7.94748) * P.c ^ 2 := by positivity
  have hE0 := lt_of_lt_of_le hrest hE
  have hE2 : (P.m_p * 3.97369 + P.m_p * 7.94748) * (P.c * P.c) ≤
      Real.sqrt
        (ProtonBoronFusionInitializeMomentum.locals F P u1 u2 m1 m2 r1 r2 r3 r4).E_star_f_sq := by
    rw [← pow_two]; exact hE
  have key := com_momentum_inversion P.c (P.m_p * 3.97369) (P.m_p * 7.94748) _ hc
    (by positivity) (by positivity) hE0 hE2
  rw [hsq] at key
  rw [ProtonBoronFusion_p_star_f_sq]
  exact key

/-- Witness of C11 with `c = q_e = m_p = 1`, a pair at rest of masses `1` and `11`, and the real
square root: the energy of the products exceeds their rest energy and `p_star_f_sq ≥ 0`. -/
theorem ProtonBoronFusion_com_momentum_witness :
    0 ≤ (ProtonBoronFusionInitializeMomentum.locals
          (Numerics.mk Real.sqrt Real.cos Real.sin Real.pi 0) ⟨1, 1, 1, 1⟩ ⟨0, 0, 0⟩ ⟨0, 0, 0⟩
          1 11 (1/4) (1/2) (1/4) (1/2)).p_star_f_sq :=
  (ProtonBoronFusion_com_momentum
      (Numerics.mk Real.sqrt Real.cos Real.sin Real.pi 0) ⟨1, 1, 1, 1⟩ ⟨0, 0, 0⟩ ⟨0, 0, 0⟩
      1 11 (1/4) (1/2) (1/4) (1/2) (by norm_num) (by norm_num) (by
    simp only [ProtonBoronFusionInitializeMomentum.locals]
    rw [Real.sqrt_mul_self_eq_abs]
    refine le_trans ?_ (le_abs_self _)
    have key : ∀ s : ℝ, 0 ≤ s →
        (1 * 3.97369 + 1 * 7.94748) * (1 : ℝ) ^ 2 ≤
          s - (1 + 11) * (1 * 1) + (1 * 3.97369 + 1 * 7.94748) * (1 * 1) +
            8.59009 * (1 * 1.e6) := by
      intro s hs
      norm_num
      linarith
    exact key _ (Real.sqrt_nonneg _))).1

/-- Reading an entry after writing one: `SoaData.set` changes exactly the entry written. -/
theorem SoaData.set_m_rdata {K : Type} (s : SoaData K) (comp c : PIdx) (idx j : Nat) (v : K) :
    (s.set comp idx v).m_rdata c j = if c = comp ∧ j = idx then v else s.m_rdata c j := rfl

/-- C12: `ProtonBoronFusionInitializeMomentum` fills six alphas, each computed momentum being
used twice: on return, entries `idx_alpha_start` and `idx_alpha_start + 1` of the `ux/uy/uz`
arrays of `soa_alpha` hold `p_alpha1/m_alpha`, entries `+2`, `+3` hold `p_alpha2/m_alpha`,
entries `+4`, `+5` hold `p_alpha3/m_alpha` (`m_alpha = m_p*3.97369`); every other entry of
`soa_alpha` keeps its value, and `soa_1`, `soa_2` are unchanged. -/
theorem ProtonBoronFusion_six_alphas {K : Type} [LinearOrderedField K] (F : Numerics K)
    (P : PhysConst K) (t : FusionTiles K) (idx_1 idx_2 idx_alpha_start : Nat)
    (m1 m2 r1 r2 r3 r4 : K) :
    (∀ k : Nat, k < 2 →
      ((ProtonBoronFusionInitializeMomentum.call F P t idx_1 idx_2 idx_alpha_start
          m1 m2 r1 r2 r3 r4).soa_alpha.u (idx_alpha_start + k)) =
        Vec3.div (ProtonBoronFusionInitializeMomentum.locals F P (t.soa_1.u idx_1)
            (t.soa_2.u idx_2) m1 m2 r1 r2 r3 r4).p_alpha1 (P.m_p * 3.97369)) ∧
    (∀ k : Nat, 2 ≤ k → k < 4 →
      ((ProtonBoronFusionInitializeMomentum.call F P t idx_1 idx_2 idx_alpha_start
          m1 m2 r1 r2 r3 r4).soa_alpha.u (idx_alpha_start + k)) =
        Vec3.div (ProtonBoronFusionInitializeMomentum.locals F P (t.soa_1.u idx_1)
            (t.soa_2.u idx_2) m1 m2 r1 r2 r3 r4).p_alpha2 (P.m_p * 3.97369)) ∧
    (∀ k : Nat, 4 ≤ k → k < 6 →
      ((ProtonBoronFusionInitializeMomentum.call F P t idx_1 idx_2 idx_alpha_start
          m1 m2 r1 r2 r3 r4).soa_alpha.u (idx_alpha_start + k)) =
        Vec3.div (ProtonBoronFusionInitializeMomentum.locals F P (t.soa_1.u idx_1)
            (t.soa_2.u idx_2) m1 m2 r1 r2 r3 r4).p_alpha3 (P.m_p * 3.97369)) ∧
    (∀ (c : PIdx) (j : Nat),
      ¬ (c ≠ PIdx.w ∧ idx_alpha_start ≤ j ∧ j < idx_alpha_start + 6) →
      (ProtonBoronFusionInitializeMomentum.call F P t idx_1 idx_2 idx_alpha_start
          m1 m2 r1 r2 r3 r4).soa_alpha.m_rdata c j = t.soa_alpha.m_rdata c j) ∧
    (ProtonBoronFusionInitializeMomentum.call F P t idx_1 idx_2 idx_alpha_start
        m1 m2 r1 r2 r3 r4).soa_1 = t.soa_1 ∧
    (ProtonBoronFusionInitializeMomentum.call F P t idx_1 idx_2 idx_alpha_start
        m1 m2 r1 r2 r3 r4).soa_2 = t.soa_2 := by
  refine ⟨?_, ?_, ?_, ?_, rfl, rfl⟩
  · intro k hk
    interval_cases k <;>
      simp [ProtonBoronFusionInitializeMomentum.call, ProtonBoronFusionInitializeMomentum,
        SoaData.u, SoaData.set, Vec3.div]
      <;> exact ⟨rfl, rfl, rfl⟩
  · intro k hk2 hk
    interval_cases k <;>
      simp [ProtonBoronFusionInitializeMomentum.call, ProtonBoronFusionInitializeMomentum,
        SoaData.u, SoaData.set, Vec3.div]
      <;> exact ⟨rfl, rfl, rfl⟩
  · intro k hk4 hk
    interval_cases k <;>
      simp [ProtonBoronFusionInitializeMomentum.call, ProtonBoronFusionInitializeMomentum,
        SoaData.u, SoaData.set, Vec3.div]
      <;> exact ⟨rfl, rfl, rfl⟩
  · intro c j h
    simp only [ProtonBoronFusionInitializeMomentum.call, ProtonBoronFusionInitializeMomentum,
      SoaData.set_m_rdata]
    by_cases hc : c = PIdx.w
    · subst hc
      simp
    · have hj : ¬ (idx_alpha_start ≤ j ∧ j < idx_alpha_start + 6) := fun hr => h ⟨hc, hr⟩
      have h0 : j ≠ idx_alpha_start := by omega
      have h1 : j ≠ idx_alpha_start + 1 := by omega
      have h2 : j ≠ idx_alpha_start + 2 := by omega
      have h3 : j ≠ idx_alpha_start + 3 := by omega
      have h4 : j ≠ idx_alpha_start + 4 := by omega
      have h5 : j ≠ idx_alpha_start + 5 := by omega
      simp [h0, h1, h2, h3, h4, h5]

/-- Witness of C12 over `ℚ` with `idx_alpha_start = 7`: entry `7 + 3` of the alpha arrays holds
`p_alpha2/m_alpha`, and the weight entry `7` keeps its value `5`. -/
theorem ProtonBoronFusion_six_alphas_witness :
    ((ProtonBoronFusionInitializeMomentum.call (Numerics.mk id id id 3 0 : Numerics ℚ)
        ⟨1, 1, 1, 1⟩ ⟨⟨fun _ _ => 1⟩, ⟨fun _ _ => 2⟩, ⟨fun _ _ => 5⟩⟩ 0 0 7
        1 11 (1/4) (1/2) (1/4) (1/2)).soa_alpha.u (7 + 3)) =
      Vec3.div (ProtonBoronFusionInitializeMomentum.locals
        (Numerics.mk id id id 3 0 : Numerics ℚ) ⟨1, 1, 1, 1⟩
        ((⟨fun _ _ => 1⟩ : SoaData ℚ).u 0) ((⟨fun _ _ => 2⟩ : SoaData ℚ).u 0)
        1 11 (1/4) (1/2) (1/4) (1/2)).p_alpha2 (1 * 3.97369) ∧
    (ProtonBoronFusionInitializeMomentum.call (Numerics.mk id id id 3 0 : Numerics ℚ)
        ⟨1, 1, 1, 1⟩ ⟨⟨fun _ _ => 1⟩, ⟨fun _ _ => 2⟩, ⟨fun _ _ => 5⟩⟩ 0 0 7
        1 11 (1/4) (1/2) (1/4) (1/2)).soa_alpha.m_rdata PIdx.w 7 = 5 :=
  ⟨(ProtonBoronFusion_six_alphas (Numerics.mk id id id 3 0 : Numerics ℚ)
      ⟨1, 1, 1, 1⟩ ⟨⟨fun _ _ => 1⟩, ⟨fun _ _ => 2⟩, ⟨fun _ _ => 5⟩⟩ 0 0 7
      1 11 (1/4) (1/2) (1/4) (1/2)).2.1 3 (by decide) (by decide),
    (ProtonBoronFusion_six_alphas (Numerics.mk id id id 3 0 : Numerics ℚ)
      ⟨1, 1, 1, 1⟩ ⟨⟨fun _ _ => 1⟩, ⟨fun _ _ => 2⟩, ⟨fun _ _ => 5⟩⟩ 0 0 7
      1 11 (1/4) (1/2) (1/4) (1/2)).2.2.2.1 PIdx.w 7 (by decide)⟩

end FusionProducts

/-! ### External fields in the boosted frame -/

section ExternalFields

/-- The boost block of `GetExternalEBField::operator()` (GetExternalFields.H:167-179) in terms
of the field that reaches it. -/
theorem GetExternalEBField_boost_block {K : Type} [LinearOrderedField K] [FloorRing K]
    (F : Numerics K) (P : PhysConst K) (g : GetExternalEBField K) (i : Int) :
    (GetExternalEBField.locals F P g i).E_boost =
      (if g.m_gamma_boost > 1 then
        ⟨g.m_gamma_boost * (GetExternalEBField.locals F P g i).E.x -
            g.m_uz_boost * (GetExternalEBField.locals F P g i).B.y,
          g.m_gamma_boost * (GetExternalEBField.locals F P g i).E.y +
            g.m_uz_boost * (GetExternalEBField.locals F P g i).B.x,
          (GetExternalEBField.locals F P g i).E.z⟩
      else (GetExternalEBField.locals F P g i).E) ∧
    (GetExternalEBField.locals F P g i).B_boost =
      (if g.m_gamma_boost > 1 then
        ⟨g.m_gamma_boost * (GetExternalEBField.locals F P g i).B.x +
            g.m_uz_boost * (GetExternalEBField.locals F P g i).E.y * (1 / (P.c * P.c)),
          g.m_gamma_boost * (GetExternalEBField.locals F P g i).B.y -
            g.m_uz_boost * (GetExternalEBField.locals F P g i).E.x * (1 / (P.c * P.c)),
          (GetExternalEBField.locals F P g i).B.z⟩
      else (GetExternalEBField.locals F P g i).B) := by
  constructor
  · simp only [GetExternalEBField.locals]
    exact apply_ite Prod.fst _ _ _
  · simp only [GetExternalEBField.locals]
    exact apply_ite Prod.snd _ _ _

/-- The field that reaches the boost block when no external field is set is zero. -/
theorem GetExternalEBField_none {K : Type} [LinearOrderedField K] [FloorRing K]
    (F : Numerics K) (P : PhysConst K) (g : GetExternalEBField K) (i : Int)
    (hE : g.m_Etype = ExternalFieldInitType.None) (hB : g.m_Btype = ExternalFieldInitType.None) :
    (GetExternalEBField.locals F P g i).E = ⟨0, 0, 0⟩ ∧
    (GetExternalEBField.locals F P g i).B = ⟨0, 0, 0⟩ := by
  simp [GetExternalEBField.locals, hE, hB]

/-- The field that reaches the boost block when both types are `Constant` is the pair of
constant values. -/
theorem GetExternalEBField_constant {K : Type} [LinearOrderedField K] [FloorRing K]
    (F : Numerics K) (P : PhysConst K) (g : GetExternalEBField K) (i : Int)
    (hE : g.m_Etype = ExternalFieldInitType.Constant)
    (hB : g.m_Btype = ExternalFieldInitType.Constant) :
    (GetExternalEBField.locals F P g i).E = g.m_Efield_value ∧
    (GetExternalEBField.locals F P g i).B = g.m_Bfield_value := by
  simp [GetExternalEBField.locals, hE, hB]

/-- The relativistic boost along `z` with `uz^2 = (gamma^2 - 1)*c^2` preserves `E.B`. -/
theorem boost_preserves_dot (c w gam uz Ex Ey Ez Bx By Bz : ℝ) (hw : c ^ 2 * w = 1)
    (hu : uz ^ 2 = (gam ^ 2 - 1) * c ^ 2) :
    Vec3.dot ⟨gam * Ex - uz * By, gam * Ey + uz * Bx, Ez⟩
        ⟨gam * Bx + uz * Ey * w, gam * By - uz * Ex * w, Bz⟩ =
      Vec3.dot (Vec3.mk Ex Ey Ez) ⟨Bx, By, Bz⟩ := by
  simp only [Vec3.dot]
  linear_combination (-(gam ^ 2 - 1) * (Ex * Bx + Ey * By)) * hw +
    (-w * (Ex * Bx + Ey * By)) * hu

/-- The relativistic boost along `z` with `uz^2 = (gamma^2 - 1)*c^2` preserves
`|E|^2 - c^2*|B|^2`. -/
theorem boost_preserves_norm (c w gam uz Ex Ey Ez Bx By Bz : ℝ) (hw : c ^ 2 * w = 1)
    (hu : uz ^ 2 = (gam ^ 2 - 1) * c ^ 2) :
    Vec3.normSq (Vec3.mk (gam * Ex - uz * By) (gam * Ey + uz * Bx) Ez) -
        c ^ 2 * Vec3.normSq (Vec3.mk (gam * Bx + uz * Ey * w) (gam * By - uz * Ex * w) Bz) =
      Vec3.normSq (Vec3.mk Ex Ey Ez) - c ^ 2 * Vec3.normSq (Vec3.mk Bx By Bz) := by
  simp only [Vec3.normSq]
  linear_combination
    (-(Ex ^ 2 + Ey ^ 2) * (uz ^ 2 * w + gam ^ 2 - 1) - 2 * gam * uz * (Ey * Bx - Ex * By)) * hw +
    (-(Ex ^ 2 + Ey ^ 2) * w + Bx ^ 2 + By ^ 2) * hu

/-- The boost block written as the Lorentz transformation of the field for the velocity
`v = uz/gamma` along `z`: `E' = gamma*(E + v x B)`, `B' = gamma*(B - v x E/c^2)` for the
transverse components, where `gamma^2*(1 - v^2/c^2) = 1` when `uz^2 = (gamma^2 - 1)*c^2`. -/
theorem boost_lorentz_form (c gam uz Ex Ey Bx By : ℝ) (hc : c ≠ 0) (hg : gam > 1)
    (hu : uz ^ 2 = (gam ^ 2 - 1) * c ^ 2) :
    gam * Ex - uz * By = gam * (Ex - uz / gam * By) ∧
    gam * Ey + uz * Bx = gam * (Ey + uz / gam * Bx) ∧
    gam * Bx + uz * Ey * (1 / (c * c)) = gam * (Bx + uz / gam * Ey / c ^ 2) ∧
    gam * By - uz * Ex * (1 / (c * c)) = gam * (By - uz / gam * Ex / c ^ 2) ∧
    gam ^ 2 * (1 - (uz / gam) ^ 2 / c ^ 2) = 1 := by
  have hgne : gam ≠ 0 := by linarith
  refine ⟨?_, ?_, ?_, ?_, ?_⟩
  · field_simp
    ring
  · field_simp
    ring
  · field_simp
    ring
  · field_simp
    ring
  · field_simp
    linear_combination (-1 : ℝ) * hu

/-- C13: with `c ≠ 0`, the boost block of `GetExternalEBField::operator()` is the full
relativistic transform.  For every external field `(E, B)` that reaches it (any six values, as
the `Constant` types show) and every `m_gamma_boost > 1`, the transformed field is
`Ex' = gamma*Ex - uz*By`, `Ey' = gamma*Ey + uz*Bx`, `Bx' = gamma*Bx + uz*Ey/c^2`,
`By' = gamma*By - uz*Ex/c^2`, with `Ez` and `Bz` unchanged.  When moreover
`m_uz_boost^2 = (m_gamma_boost^2 - 1)*c^2`, this is the Lorentz transformation for the velocity
`v = uz/gamma` along `z` (`E' = gamma*(E + v x B)`, `B' = gamma*(B - v x E/c^2)` transversally,
with `gamma^2*(1 - v^2/c^2) = 1`), and it preserves `E.B` and `|E|^2 - c^2*|B|^2`, in exact
real arithmetic.  For `m_gamma_boost ≤ 1` the field is untransformed; and the function adds
the resulting field to `field_Ex, ..., field_Bz`. -/
theorem GetExternalEBField_boost_invariants (F : Numerics ℝ) (P : PhysConst ℝ)
    (g : GetExternalEBField ℝ) (i : Int) (field_E field_B : Vec3 ℝ) (hc : P.c ≠ 0) :
    (g.m_gamma_boost > 1 →
      (GetExternalEBField.locals F P g i).E_boost =
        ⟨g.m_gamma_boost * (GetExternalEBField.locals F P g i).E.x -
            g.m_uz_boost * (GetExternalEBField.locals F P g i).B.y,
          g.m_gamma_boost * (GetExternalEBField.locals F P g i).E.y +
            g.m_uz_boost * (GetExternalEBField.locals F P g i).B.x,
          (GetExternalEBField.locals F P g i).E.z⟩ ∧
      (GetExternalEBField.locals F P g i).B_boost =
        ⟨g.m_gamma_boost * (GetExternalEBField.locals F P g i).B.x +
            g.m_uz_boost * (GetExternalEBField.locals F P g i).E.y / P.c ^ 2,
          g.m_gamma_boost * (GetExternalEBField.locals F P g i).B.y -
            g.m_uz_boost * (GetExternalEBField.locals F P g i).E.x / P.c ^ 2,
          (GetExternalEBField.locals F P g i).B.z⟩) ∧
    (g.m_gamma_boost > 1 → g.m_uz_boost ^ 2 = (g.m_gamma_boost ^ 2 - 1) * P.c ^ 2 →
      (GetExternalEBField.locals F P g i).E_boost.z = (GetExternalEBField.locals F P g i).E.z ∧
      (GetExternalEBField.locals F P g i).B_boost.z = (GetExternalEBField.locals F P g i).B.z ∧
      (GetExternalEBField.locals F P g i).E_boost.dot
          (GetExternalEBField.locals F P g i).B_boost =
        (GetExternalEBField.locals F P g i).E.dot (GetExternalEBField.locals F P g i).B ∧
      (GetExternalEBField.locals F P g i).E_boost.normSq -
          P.c ^ 2 * (GetExternalEBField.locals F P g i).B_boost.normSq =
        (GetExternalEBField.locals F P g i).E.normSq -
          P.c ^ 2 * (GetExternalEBField.locals F P g i).B.normSq ∧
      (GetExternalEBField.locals F P g i).E_boost.x =
        g.m_gamma_boost * ((GetExternalEBField.locals F P g i).E.x -
          g.m_uz_boost / g.m_gamma_boost * (GetExternalEBField.locals F P g i).B.y) ∧
      (GetExternalEBField.locals F P g i).E_boost.y =
        g.m_gamma_boost * ((GetExternalEBField.locals F P g i).E.y +
          g.m_uz_boost / g.m_gamma_boost * (GetExternalEBField.locals F P g i).B.x) ∧
      (GetExternalEBField.locals F P g i).B_boost.x =
        g.m_gamma_boost * ((GetExternalEBField.locals F P g i).B.x +
          g.m_uz_boost / g.m_gamma_boost * (GetExternalEBField.locals F P g i).E.y / P.c ^ 2) ∧
      (GetExternalEBField.locals F P g i).B_boost.y =
        g.m_gamma_boost * ((GetExternalEBField.locals F P g i).B.y -
          g.m_uz_boost / g.m_gamma_boost * (GetExternalEBField.locals F P g i).E.x / P.c ^ 2) ∧
      g.m_gamma_boost ^ 2 * (1 - (g.m_uz_boost / g.m_gamma_boost) ^ 2 / P.c ^ 2) = 1) ∧
    (g.m_gamma_boost ≤ 1 →
      (GetExternalEBField.locals F P g i).E_boost = (GetExternalEBField.locals F P g i).E ∧
      (GetExternalEBField.locals F P g i).B_boost = (GetExternalEBField.locals F P g i).B) ∧
    GetExternalEBField.operator F P g i field_E field_B =
      (field_E.add (GetExternalEBField.locals F P g i).E_boost,
        field_B.add (GetExternalEBField.locals F P g i).B_boost) ∧
    (g.m_Etype = ExternalFieldInitType.Constant → g.m_Btype = ExternalFieldInitType.Constant →
      (GetExternalEBField.locals F P g i).E = g.m_Efield_value ∧
      (GetExternalEBField.locals F P g i).B = g.m_Bfield_value) := by
  obtain ⟨hEb, hBb⟩ := GetExternalEBField_boost_block F P g i
  have hw : P.c ^ 2 * (1 / (P.c * P.c)) = 1 := by
    field_simp
    ring
  have hdiv : ∀ a : ℝ, a * (1 / (P.c * P.c)) = a / P.c ^ 2 := by
    intro a
    rw [pow_two, mul_one_div]
  refine ⟨?_, ?_, ?_, ?_, GetExternalEBField_constant F P g i⟩
  · intro hg
    rw [hEb, hBb, if_pos hg, if_pos hg, hdiv, hdiv]
    exact ⟨rfl, rfl⟩
  · intro hg hu
    obtain ⟨l1, l2, l3, l4, l5⟩ := boost_lorentz_form P.c g.m_gamma_boost g.m_uz_boost
      (GetExternalEBField.locals F P g i).E.x (GetExternalEBField.locals F P g i).E.y
      (GetExternalEBField.locals F P g i).B.x (GetExternalEBField.locals F P g i).B.y hc hg hu
    rw [hEb, hBb, if_pos hg, if_pos hg]
    refine ⟨rfl, rfl, ?_, ?_, l1, l2, l3, l4, l5⟩
    · exact boost_preserves_dot P.c _ _ _ _ _ _ _ _ _ hw hu
    · exact boost_preserves_norm P.c _ _ _ _ _ _ _ _ _ hw hu
  · intro hg
    rw [hEb, hBb, if_neg (not_lt.mpr hg), if_neg (not_lt.mpr hg)]
    exact ⟨rfl, rfl⟩
  · unfold GetExternalEBField.operator
    split_ifs with hnone
    · obtain ⟨hE0, hB0⟩ := GetExternalEBField_none F P g i hnone.1 hnone.2
      rw [hEb, hBb, hE0, hB0]
      split_ifs <;> simp [Vec3.add]
    · rfl

/-- Witness of C13 with `c = 1`, `m_gamma_boost = 5/4`, `m_uz_boost = 3/4` (so that
`uz^2 = (gamma^2 - 1)*c^2`) and the constant fields `E = (1, 2, 3)`, `B = (4, 5, 6)`: the
boosted field is `E' = (-5/2, 11/2, 3)`, `B' = (13/2, 11/2, 6)`, which differs from `(E, B)`,
and `E'.B' = 32 = E.B`. -/
theorem GetExternalEBField_boost_invariants_witness :
    (GetExternalEBField.locals (Numerics.mk Real.sqrt Real.cos Real.sin Real.pi 0)
        ⟨1, 1, 1, 1⟩ (GetExternalEBField.constantFields ⟨1, 2, 3⟩ ⟨4, 5, 6⟩ (5 / 4) (3 / 4))
        0).E_boost = ⟨-5 / 2, 11 / 2, 3⟩ ∧
    (GetExternalEBField.locals (Numerics.mk Real.sqrt Real.cos Real.sin Real.pi 0)
        ⟨1, 1, 1, 1⟩ (GetExternalEBField.constantFields ⟨1, 2, 3⟩ ⟨4, 5, 6⟩ (5 / 4) (3 / 4))
        0).B_boost = ⟨13 / 2, 11 / 2, 6⟩ ∧
    (GetExternalEBField.locals (Numerics.mk Real.sqrt Real.cos Real.sin Real.pi 0)
        ⟨1, 1, 1, 1⟩ (GetExternalEBField.constantFields ⟨1, 2, 3⟩ ⟨4, 5, 6⟩ (5 / 4) (3 / 4))
        0).E_boost.dot
      (GetExternalEBField.locals (Numerics.mk Real.sqrt Real.cos Real.sin Real.pi 0)
        ⟨1, 1, 1, 1⟩ (GetExternalEBField.constantFields ⟨1, 2, 3⟩ ⟨4, 5, 6⟩ (5 / 4) (3 / 4))
        0).B_boost = 32 := by
  have h := GetExternalEBField_boost_invariants
    (Numerics.mk Real.sqrt Real.cos Real.sin Real.pi 0) ⟨1, 1, 1, 1⟩
    (GetExternalEBField.constantFields ⟨1, 2, 3⟩ ⟨4, 5, 6⟩ (5 / 4) (3 / 4)) 0
    ⟨0, 0, 0⟩ ⟨0, 0, 0⟩ (by norm_num)
  have hg : (GetExternalEBField.constantFields (⟨1, 2, 3⟩ : Vec3 ℝ) ⟨4, 5, 6⟩ (5 / 4)
      (3 / 4)).m_gamma_boost > 1 := by
    norm_num [GetExternalEBField.constantFields]
  have hu : (GetExternalEBField.constantFields (⟨1, 2, 3⟩ : Vec3 ℝ) ⟨4, 5, 6⟩ (5 / 4)
        (3 / 4)).m_uz_boost ^ 2 =
      ((GetExternalEBField.constantFields (⟨1, 2, 3⟩ : Vec3 ℝ) ⟨4, 5, 6⟩ (5 / 4)
        (3 / 4)).m_gamma_boost ^ 2 - 1) * (PhysConst.mk (1 : ℝ) 1 1 1).c ^ 2 := by
    norm_num [GetExternalEBField.constantFields]
  obtain ⟨hE, hB⟩ := h.2.2.2.2 rfl rfl
  refine ⟨?_, ?_, ?_⟩
  · rw [(h.1 hg).1, hE, hB]
    norm_num [GetExternalEBField.constantFields]
  · rw [(h.1 hg).2, hE, hB]
    norm_num [GetExternalEBField.constantFields]
  · rw [(h.2.1 hg hu).2.2.1, hE, hB]
    norm_num [Vec3.dot, GetExternalEBField.constantFields]

end ExternalFields

/-! ### Spectral transforms -/

section SpectralTransforms

/-- Two spectral solvers with the same slots are equal. -/
theorem SpectralSolver.ext_fields {S : Type} (a b : SpectralSolver S)
    (h : ∀ slot, a.field_data.fields slot = b.field_data.fields slot) : a = b := by
  obtain ⟨⟨fa⟩⟩ := a
  obtain ⟨⟨fb⟩⟩ := b
  have hf : fa = fb := funext h
  rw [hf]

/-- The slot written by `ForwardTransform` and the slots it leaves alone. -/
theorem ForwardTransform_fields {Cell IV K S : Type} (T : FourierTransform (Cell → K) S)
    (solver : SpectralSolver S) (lev : Int) (mf : MultiFab Cell IV K)
    (field_index i_comp slot : Int) :
    (SpectralSolver.ForwardTransform T solver lev mf field_index i_comp).field_data.fields slot =
      if slot = field_index then T.forward lev (fun cell => mf.data cell i_comp)
      else solver.field_data.fields slot := rfl

/-- Orthogonality of the roots of unity: along one axis the inverse transform matrix times the
forward transform matrix is the identity. -/
theorem idftMatrix_mul_dftMatrix {L : Type} [Field L] (n : Nat) (ω : L)
    (hω : IsPrimitiveRoot ω n) (hn : (n : L) ≠ 0) :
    idftMatrix n ω * dftMatrix n ω = 1 := by
  have hn0 : n ≠ 0 := by
    rintro rfl
    exact hn (by simp)
  have hω0 : ω ≠ 0 := hω.ne_zero hn0
  ext j j2
  simp only [Matrix.mul_apply, idftMatrix, dftMatrix, Matrix.of_apply, Matrix.one_apply]
  by_cases hj : j = j2
  · subst hj
    rw [if_pos rfl]
    have hterm : ∀ k : Fin n, (n : L)⁻¹ * (ω ^ (k.val * j.val))⁻¹ * ω ^ (k.val * j.val) =
        (n : L)⁻¹ := by
      intro k
      rw [mul_assoc, inv_mul_cancel₀ (pow_ne_zero _ hω0), mul_one]
    simp only [hterm, Finset.sum_const, Finset.card_univ, Fintype.card_fin, nsmul_eq_mul]
    exact mul_inv_cancel₀ hn
  · rw [if_neg hj]
    have hterm : ∀ k : Fin n, (n : L)⁻¹ * (ω ^ (k.val * j.val))⁻¹ * ω ^ (k.val * j2.val) =
        (n : L)⁻¹ * ((ω ^ j.val)⁻¹ * ω ^ j2.val) ^ k.val := by
      intro k
      rw [mul_pow, inv_pow, ← pow_mul, ← pow_mul, mul_comm j.val, mul_comm j2.val, mul_assoc]
    simp only [hterm]
    rw [← Finset.mul_sum, Fin.sum_univ_eq_sum_range (fun k => ((ω ^ j.val)⁻¹ * ω ^ j2.val) ^ k) n]
    have hne : (ω ^ j.val)⁻¹ * ω ^ j2.val ≠ 1 := by
      intro h
      have h2 : ω ^ j2.val = ω ^ j.val := by
        have h3 := congrArg (fun x => ω ^ j.val * x) h
        simpa [← mul_assoc, mul_inv_cancel₀ (pow_ne_zero j.val hω0)] using h3
      exact hj (Fin.ext (hω.pow_inj j2.isLt j.isLt h2)).symm
    have hpow : ((ω ^ j.val)⁻¹ * ω ^ j2.val) ^ n = 1 := by
      rw [mul_pow, inv_pow, ← pow_mul, ← pow_mul, mul_comm j.val, mul_comm j2.val, pow_mul,
        pow_mul, hω.pow_eq_one, one_pow, one_pow, inv_one, one_mul]
    rw [geom_sum_eq hne, hpow, sub_self, zero_div, mul_zero]

/-- On a block of `nx × ny × nz` cells the inverse transform matrix times the forward transform
matrix is the identity. -/
theorem idftMatrix3_mul_dftMatrix3 {L : Type} [Field L] (nx ny nz : Nat) (ωx ωy ωz : L)
    (hx : IsPrimitiveRoot ωx nx) (hy : IsPrimitiveRoot ωy ny) (hz : IsPrimitiveRoot ωz nz)
    (hnx : (nx : L) ≠ 0) (hny : (ny : L) ≠ 0) (hnz : (nz : L) ≠ 0) :
    idftMatrix3 nx ny nz ωx ωy ωz * dftMatrix3 nx ny nz ωx ωy ωz = 1 := by
  simp only [idftMatrix3, dftMatrix3, Matrix.kronecker]
  rw [← Matrix.mul_kronecker_mul, ← Matrix.mul_kronecker_mul,
    idftMatrix_mul_dftMatrix nx ωx hx hnx, idftMatrix_mul_dftMatrix ny ωy hy hny,
    idftMatrix_mul_dftMatrix nz ωz hz hnz, Matrix.one_kronecker_one, Matrix.one_kronecker_one]

/-- The backward transform of the block transform inverts its forward transform, for every
level and every real-space component. -/
theorem FourierTransform.dft_backward_forward {K L : Type} [Field L] (embed : K → L)
    (re : L → K) (hre : ∀ x, re (embed x) = x) (nx ny nz : Nat) (ωx ωy ωz : L)
    (hx : IsPrimitiveRoot ωx nx) (hy : IsPrimitiveRoot ωy ny) (hz : IsPrimitiveRoot ωz nz)
    (hnx : (nx : L) ≠ 0) (hny : (ny : L) ≠ 0) (hnz : (nz : L) ≠ 0)
    (lev : Int) (f : Fin nx × Fin ny × Fin nz → K) :
    (FourierTransform.dft embed re nx ny nz ωx ωy ωz).backward lev
      ((FourierTransform.dft embed re nx ny nz ωx ωy ωz).forward lev f) = f := by
  funext cell
  simp only [FourierTransform.dft, Matrix.mulVec_mulVec,
    idftMatrix3_mul_dftMatrix3 nx ny nz ωx ωy ωz hx hy hz hnx hny hnz, Matrix.one_mulVec, hre]

/-- For a transform pair whose backward transform inverts the forward one: `ForwardTransform`
of component `i_comp` of `mf` into slot `field_index`, then `BackwardTransform` of that slot
into component `i_comp2` of any array `dst`, puts component `i_comp` of `mf` there and leaves
the other components of `dst` as they were. -/
theorem BackwardTransform_ForwardTransform_of_inverse {Cell IV K S : Type}
    (T : FourierTransform (Cell → K) S) (solver : SpectralSolver S) (lev : Int)
    (mf dst : MultiFab Cell IV K) (field_index i_comp i_comp2 : Int)
    (hinv : ∀ f : Cell → K, T.backward lev (T.forward lev f) = f) (cell : Cell) (n : Int) :
    (SpectralSolver.BackwardTransform T
        (SpectralSolver.ForwardTransform T solver lev mf field_index i_comp)
        lev dst field_index i_comp2).data cell n =
      if n = i_comp2 then mf.data cell i_comp else dst.data cell n := by
  simp only [SpectralSolver.BackwardTransform, ForwardTransform_fields, if_true, hinv]

/-- C14: `BackwardTransform` after `ForwardTransform`, with no spectral update in between,
reproduces the field.  With the Fourier collaborator of a block of `nx × ny × nz` cells (real
values, complex spectrum, `ωx, ωy, ωz` primitive roots of unity of orders `nx, ny, nz`): for
every level, `field_index` and `i_comp`, and whatever the spectral store held before,
transforming component `i_comp` of `mf` into slot `field_index` and transforming that slot back
into component `i_comp` of any array `dst` gives there the values of component `i_comp` of `mf`
and changes no other component of `dst`; in particular, transforming back into `mf` itself
leaves `mf` equal to its original values. -/
theorem BackwardTransform_ForwardTransform {IV : Type} (nx ny nz : Nat) (ωx ωy ωz : ℂ)
    (hx : IsPrimitiveRoot ωx nx) (hy : IsPrimitiveRoot ωy ny) (hz : IsPrimitiveRoot ωz nz)
    (hnx : 0 < nx) (hny : 0 < ny) (hnz : 0 < nz)
    (solver : SpectralSolver (Fin nx × Fin ny × Fin nz → ℂ)) (lev : Int)
    (mf dst : MultiFab (Fin nx × Fin ny × Fin nz) IV ℝ) (field_index i_comp : Int) :
    (∀ cell : Fin nx × Fin ny × Fin nz,
      (SpectralSolver.BackwardTransform
          (FourierTransform.dft Complex.ofReal Complex.re nx ny nz ωx ωy ωz)
          (SpectralSolver.ForwardTransform
            (FourierTransform.dft Complex.ofReal Complex.re nx ny nz ωx ωy ωz)
            solver lev mf field_index i_comp)
          lev dst field_index i_comp).data cell i_comp = mf.data cell i_comp) ∧
    (∀ (cell : Fin nx × Fin ny × Fin nz) (n : Int), n ≠ i_comp →
      (SpectralSolver.BackwardTransform
          (FourierTransform.dft Complex.ofReal Complex.re nx ny nz ωx ωy ωz)
          (SpectralSolver.ForwardTransform
            (FourierTransform.dft Complex.ofReal Complex.re nx ny nz ωx ωy ωz)
            solver lev mf field_index i_comp)
          lev dst field_index i_comp).data cell n = dst.data cell n) ∧
    SpectralSolver.BackwardTransform
        (FourierTransform.dft Complex.ofReal Complex.re nx ny nz ωx ωy ωz)
        (SpectralSolver.ForwardTransform
          (FourierTransform.dft Complex.ofReal Complex.re nx ny nz ωx ωy ωz)
          solver lev mf field_index i_comp)
        lev mf field_index i_comp = mf := by
  have hinv : ∀ f : Fin nx × Fin ny × Fin nz → ℝ,
      (FourierTransform.dft Complex.ofReal Complex.re nx ny nz ωx ωy ωz).backward lev
        ((FourierTransform.dft Complex.ofReal Complex.re nx ny nz ωx ωy ωz).forward lev f) = f :=
    FourierTransform.dft_backward_forward Complex.ofReal Complex.re Complex.ofReal_re
      nx ny nz ωx ωy ωz hx hy hz (Nat.cast_ne_zero.mpr hnx.ne.symm)
      (Nat.cast_ne_zero.mpr hny.ne.symm) (Nat.cast_ne_zero.mpr hnz.ne.symm) lev
  have key : ∀ (a b : MultiFab (Fin nx × Fin ny × Fin nz) IV ℝ)
      (cell : Fin nx × Fin ny × Fin nz) (n : Int),
      (SpectralSolver.BackwardTransform
          (FourierTransform.dft Complex.ofReal Complex.re nx ny nz ωx ωy ωz)
          (SpectralSolver.ForwardTransform
            (FourierTransform.dft Complex.ofReal Complex.re nx ny nz ωx ωy ωz)
            solver lev a field_index i_comp)
          lev b field_index i_comp).data cell n =
        if n = i_comp then a.data cell i_comp else b.data cell n :=
    fun a b cell n => BackwardTransform_ForwardTransform_of_inverse
      (FourierTransform.dft Complex.ofReal Complex.re nx ny nz ωx ωy ωz) solver lev
      a b field_index i_comp i_comp hinv cell n
  refine ⟨?_, ?_, ?_⟩
  · intro cell
    rw [key mf dst cell i_comp, if_pos rfl]
  · intro cell n hn
    rw [key mf dst cell n, if_neg hn]
  · have hdata : ∀ (cell : Fin nx × Fin ny × Fin nz) (n : Int),
        (SpectralSolver.BackwardTransform
          (FourierTransform.dft Complex.ofReal Complex.re nx ny nz ωx ωy ωz)
          (SpectralSolver.ForwardTransform
            (FourierTransform.dft Complex.ofReal Complex.re nx ny nz ωx ωy ωz)
            solver lev mf field_index i_comp)
          lev mf field_index i_comp).data cell n = mf.data cell n := by
      intro cell n
      rw [key mf mf cell n]
      split_ifs with hn
      · rw [hn]
      · rfl
    obtain ⟨d, ng⟩ := mf
    simp only [SpectralSolver.BackwardTransform, MultiFab.mk.injEq, and_true]
    funext cell n
    exact hdata cell n

/-- Witness of C14 on a block of `2 × 1 × 1` cells (`ωx = -1`, `ωy = ωz = 1`): component 1 of
`mf`, with values `3` and `5`, goes to slot 4 and comes back into component 1 of an array that
held `100` everywhere; the second cell holds `5` again. -/
theorem BackwardTransform_ForwardTransform_witness :
    (SpectralSolver.BackwardTransform
        (FourierTransform.dft Complex.ofReal Complex.re 2 1 1 (-1) 1 1)
        (SpectralSolver.ForwardTransform
          (FourierTransform.dft Complex.ofReal Complex.re 2 1 1 (-1) 1 1)
          ⟨⟨fun _ _ => 0⟩⟩ 0
          (⟨fun cell _ => if cell.1 = 0 then 3 else 5, (0 : Int)⟩ :
            MultiFab (Fin 2 × Fin 1 × Fin 1) Int ℝ) 4 1)
        0 (⟨fun _ _ => 100, (0 : Int)⟩ : MultiFab (Fin 2 × Fin 1 × Fin 1) Int ℝ)
        4 1).data (1, 0, 0) 1 = 5 := by
  rw [(BackwardTransform_ForwardTransform 2 1 1 (-1) 1 1
    (IsPrimitiveRoot.neg_one 0 (by norm_num)) IsPrimitiveRoot.one IsPrimitiveRoot.one
    (by norm_num) (by norm_num) (by norm_num) ⟨⟨fun _ _ => 0⟩⟩ 0
    (⟨fun cell _ => if cell.1 = 0 then 3 else 5, (0 : Int)⟩ :
      MultiFab (Fin 2 × Fin 1 × Fin 1) Int ℝ)
    (⟨fun _ _ => 100, (0 : Int)⟩ : MultiFab (Fin 2 × Fin 1 × Fin 1) Int ℝ) 4 1).1 (1, 0, 0)]
  simp

/-- C15: `ForwardTransform` is order-independent across different slots and idempotent: for
two fields `A`, `B` and distinct slots `iA ≠ iB`, `ForwardTransform(A, iA)` followed by
`ForwardTransform(B, iB)` leaves the spectral store in the same state as the two calls in the
other order, and doing `ForwardTransform(A, iA)` twice gives the same state as doing it
once. -/
theorem ForwardTransform_commute_idempotent {Cell IV K S : Type}
    (T : FourierTransform (Cell → K) S) (solver : SpectralSolver S) (lev : Int)
    (A B : MultiFab Cell IV K) (iA iB compA compB : Int) :
    (iA ≠ iB →
      SpectralSolver.ForwardTransform T
          (SpectralSolver.ForwardTransform T solver lev A iA compA) lev B iB compB =
        SpectralSolver.ForwardTransform T
          (SpectralSolver.ForwardTransform T solver lev B iB compB) lev A iA compA) ∧
    SpectralSolver.ForwardTransform T
        (SpectralSolver.ForwardTransform T solver lev A iA compA) lev A iA compA =
      SpectralSolver.ForwardTransform T solver lev A iA compA := by
  constructor
  · intro hne
    apply SpectralSolver.ext_fields
    intro slot
    simp only [ForwardTransform_fields]
    by_cases hA : slot = iA
    · have hB : slot ≠ iB := fun h => hne (hA.symm.trans h)
      rw [if_neg hB, if_pos hA, if_pos hA]
    · rw [if_neg hA, if_neg hA]
  · apply SpectralSolver.ext_fields
    intro slot
    simp only [ForwardTransform_fields]
    split_ifs <;> rfl

/-- Witness of C15 with the identity as transform on a one-cell mesh over `ℚ`: after the
transforms of `A` into slot 1 and of `B` into slot 2, in either order, slot 1 holds `A`. -/
theorem ForwardTransform_commute_idempotent_witness :
    (SpectralSolver.ForwardTransform
        (FourierTransform.mk (fun _ f => f) (fun _ f => f) : FourierTransform (Unit → ℚ) (Unit → ℚ))
        (SpectralSolver.ForwardTransform
          (FourierTransform.mk (fun _ f => f) (fun _ f => f) :
            FourierTransform (Unit → ℚ) (Unit → ℚ))
          ⟨⟨fun _ _ => 0⟩⟩ 0 (⟨fun _ _ => 7, (0 : Int)⟩ : MultiFab Unit Int ℚ) 1 0)
        0 (⟨fun _ _ => 9, (0 : Int)⟩ : MultiFab Unit Int ℚ) 2 0).field_data.fields 1 () = 7 := by
  rw [(ForwardTransform_commute_idempotent
    (FourierTransform.mk (fun _ f => f) (fun _ f => f) : FourierTransform (Unit → ℚ) (Unit → ℚ))
    ⟨⟨fun _ _ => 0⟩⟩ 0 (⟨fun _ _ => 7, (0 : Int)⟩ : MultiFab Unit Int ℚ)
    (⟨fun _ _ => 9, (0 : Int)⟩ : MultiFab Unit Int ℚ) 1 2 0 0).1 (by decide)]
  rfl

end SpectralTransforms

end Artemis
